import Mathlib

/-!
# collectd `src/riak.c`: stats-line parser, fetch buffer and RPC probes

A shallow embedding of `riak.c`.

* `riak_buffer` is a list of bytes (`Nat`), `riak_buffer_len` a `Nat`; pointers into the
  buffer are offsets.  An access outside the array leaves defined behaviour and is recorded
  as a `Fault`; the embedding stops there.
* `size_t` arithmetic is `Nat` arithmetic modulo `2 ^ 64`.
* A sample is the argument triple of one call of `submit`.
* libc (`strtok_r`, `strlen`, `strcmp`, `atoll`, `memcpy`), libcurl and erl_interface are
  outside the repository; their documented behaviour is embedded next to the code that
  calls them, and what the network delivers is a parameter (`CurlEnv`, `EiEnv`).
-/

namespace Riak

/-! ## Data model -/

/-- The bytes of a C string literal. -/
def str (s : String) : List Nat := s.toList.map Char.toNat

/-- One call `submit (type, inst, value)`. -/
structure Sample where
  type : String
  type_instance : List Nat
  value : Int
deriving DecidableEq, Repr

/-- Ways in which an execution leaves defined behaviour. -/
inductive Fault where
  /-- a read at `riak_buffer[idx]` outside the array -/
  | buffer_read (idx : Int)
  /-- a write at `riak_buffer[idx]` outside the array -/
  | buffer_write (idx : Int)
  /-- a write at `lines[k]` outside `char *lines[160]` -/
  | lines_write (k : Nat)
  /-- `assert (sizeof (riak_buffer) > riak_buffer_len)` failed -/
  | assert_failed
  /-- `strtok_r (NULL, ...)` with an unset save pointer -/
  | null_deref
  /-- the embedding of a loop ran out of fuel (never happens, see `read_lines`) -/
  | no_fuel
deriving DecidableEq, Repr

/-- The globals `riak_buffer` and `riak_buffer_len`. -/
structure State where
  riak_buffer : List Nat
  riak_buffer_len : Nat
deriving DecidableEq, Repr

/-- The value of `sizeof (riak_buffer)` for `static char riak_buffer[16384]`. -/
def sizeof_riak_buffer : Nat := 16384

/-- The modulus of `size_t` arithmetic. -/
def SIZE_MOD : Nat := 2 ^ 64

/-- The state at program start: static storage is zero-initialised. -/
def State.init : State := ⟨List.replicate sizeof_riak_buffer 0, 0⟩

/-- The array `stats_metrics`. -/
def stats_metrics : List String :=
  ["node_gets", "node_gets_total", "node_puts", "node_puts_total",
   "vnode_gets", "vnode_gets_total", "vnode_puts", "vnode_puts_total", "read_repairs",
   "read_repairs_total", "coord_redirs_total", "node_get_fsm_time_mean",
   "node_get_fsm_time_median", "node_get_fsm_time_95", "node_get_fsm_time_100",
   "node_put_fsm_time_mean", "node_put_fsm_time_median", "node_put_fsm_time_95",
   "node_put_fsm_time_100", "node_get_fsm_objsize_mean", "node_get_fsm_objsize_median",
   "node_get_fsm_objsize_95", "node_get_fsm_objsize_100", "node_get_fsm_siblings_mean",
   "node_get_fsm_siblings_median", "node_get_fsm_siblings_95", "node_get_fsm_siblings_100",
   "memory_processes_used", "sys_process_count", "pbc_connects", "pbc_active"]

/-- The array `repl_metrics`. -/
def repl_metrics : List String :=
  ["queue_length", "queue_byte_size", "queue_percentage",
   "dropped_count", "local_leader_message_queue_len", "local_leader_heap_size"]

/-! ## Memory accesses and libc -/

/-- Read `riak_buffer[idx]`. -/
def load (mem : List Nat) (idx : Nat) : Except Fault Nat :=
  match mem.get? idx with
  | some b => .ok b
  | none => .error (.buffer_read idx)

/-- Write `riak_buffer[idx] = v`.  The offset is an integer: `p[strlen (p) - 2]` with
`strlen (p) < 2` wraps in `size_t` and wraps back in the address computation, so the byte
addressed lies before `p`. -/
def store (mem : List Nat) (idx : Int) (v : Nat) : Except Fault (List Nat) :=
  if 0 ≤ idx ∧ idx < mem.length then .ok (mem.set idx.toNat v) else .error (.buffer_write idx)

/-- The libc call `memcpy (&riak_buffer[dst], src, len)`; `src i` is the byte `src[i]`. -/
def memcpy (mem : List Nat) (dst : Nat) (src : Nat → Nat) (len : Nat) :
    Except Fault (List Nat) :=
  if dst + len ≤ mem.length then
    .ok (mem.take dst ++ (List.range len).map src ++ mem.drop (dst + len))
  else .error (.buffer_write (max dst mem.length))

/-- Number of bytes before the first byte on which `stop` holds; `none` when the scan runs
off the end of the array. -/
def scan (stop : Nat → Bool) : List Nat → Option Nat
  | [] => none
  | c :: cs => if stop c then some 0 else (scan stop cs).map (· + 1)

/-- The libc call `strlen (riak_buffer + p)`. -/
def strlen (mem : List Nat) (p : Nat) : Except Fault Nat :=
  match scan (fun c => c == 0) (mem.drop p) with
  | some n => .ok n
  | none => .error (.buffer_read mem.length)

/-- The libc call `strspn (riak_buffer + p, delim)`: `delim` is a C string, so the scan
stops at the terminating NUL at the latest. -/
def strspn (mem : List Nat) (p : Nat) (delim : List Nat) : Except Fault Nat :=
  match scan (fun c => !delim.contains c) (mem.drop p) with
  | some n => .ok n
  | none => .error (.buffer_read mem.length)

/-- The libc call `strcspn (riak_buffer + p, delim)`. -/
def strcspn (mem : List Nat) (p : Nat) (delim : List Nat) : Except Fault Nat :=
  match scan (fun c => c == 0 || delim.contains c) (mem.drop p) with
  | some n => .ok n
  | none => .error (.buffer_read mem.length)

/-- The bytes of the C string that starts the list, without the NUL. -/
def cstr : List Nat → Option (List Nat)
  | [] => none
  | c :: cs => if c = 0 then some [] else (cstr cs).map (c :: ·)

/-- The C string at `riak_buffer + p`. -/
def cstring (mem : List Nat) (p : Nat) : Except Fault (List Nat) :=
  match cstr (mem.drop p) with
  | some s => .ok s
  | none => .error (.buffer_read mem.length)

/-- The libc call `strcmp (riak_buffer + p, s)` for a constant string `s` (no NUL inside),
given the bytes from `p` on: the difference of the first two bytes that differ, `0` when
both strings end together. -/
def strcmp : List Nat → List Nat → Option Int
  | [], _ => none
  | c :: _, [] => some (c : Int)
  | c :: cs, d :: ds => if c = d then strcmp cs ds else some ((c : Int) - (d : Int))

/-- The character class of `isspace` in the C locale. -/
def isspace (c : Nat) : Bool := c == 32 || (9 ≤ c && c ≤ 13)

/-- The character class of `isdigit`. -/
def isdigit (c : Nat) : Bool := 48 ≤ c && c ≤ 57

/-- The value of the leading decimal digits, continuing from `acc`. -/
def digits_value : Nat → List Nat → Nat
  | acc, [] => acc
  | acc, c :: cs => if isdigit c then digits_value (acc * 10 + (c - 48)) cs else acc

/-- Largest `long long`. -/
def LLONG_MAX : Int := 2 ^ 63 - 1

/-- Smallest `long long`. -/
def LLONG_MIN : Int := -(2 ^ 63)

/-- The integer that `atoll` reads from the bytes of a C string: optional white space,
optional sign, decimal digits; `0` when there is no digit. -/
def atoll_exact (s : List Nat) : Int :=
  match s.dropWhile isspace with
  | 45 :: r => -(digits_value 0 r : Int)
  | 43 :: r => (digits_value 0 r : Int)
  | r => (digits_value 0 r : Int)

/-- The libc call `atoll` on the bytes of a C string.  Outside the range of `long long`
the C standard leaves the result open; glibc saturates, as here. -/
def atoll (s : List Nat) : Int :=
  if LLONG_MAX < atoll_exact s then LLONG_MAX
  else if atoll_exact s < LLONG_MIN then LLONG_MIN
  else atoll_exact s

/-- The libc call `strtok_r (s, delim, &save_ptr)` on `riak_buffer`: returns the buffer,
the token (`none` for NULL) and the new save pointer. -/
def strtok_r (mem : List Nat) (s : Option Nat) (delim : List Nat) (save_ptr : Option Nat) :
    Except Fault (List Nat × Option Nat × Option Nat) :=
  match (s <|> save_ptr) with
  | none => .error .null_deref
  | some s =>
    match strspn mem s delim with
    | .error f => .error f
    | .ok k =>
      let tok := s + k
      match load mem tok with
      | .error f => .error f
      | .ok b =>
        if b = 0 then .ok (mem, none, some tok)
        else
          match strcspn mem tok delim with
          | .error f => .error f
          | .ok n =>
            let e := tok + n
            match load mem e with
            | .error f => .error f
            | .ok c =>
              if c = 0 then .ok (mem, some tok, some e)
              else
                match store mem e 0 with
                | .error f => .error f
                | .ok mem1 => .ok (mem1, some tok, some (e + 1))

/-! ## `riak_curl_callback` -/

/-- The tail of `riak_curl_callback` from `if (len <= 0)` on, for the final `len`. -/
def append_chunk (st : State) (buf : Nat → Nat) (len : Nat) : Except Fault (State × Nat) :=
  if len = 0 then .ok (st, len)
  else
    match memcpy st.riak_buffer st.riak_buffer_len buf len with
    | .error f => .error f
    | .ok mem1 =>
      let n := (st.riak_buffer_len + len) % SIZE_MOD
      match store mem1 n 0 with
      | .error f => .error f
      | .ok mem2 => .ok (⟨mem2, n⟩, len)

/-- The write callback `riak_curl_callback (buf, size, nmemb, stream)`: the new globals and
the return value. -/
def riak_curl_callback (st : State) (buf : Nat → Nat) (size nmemb : Nat) :
    Except Fault (State × Nat) :=
  let len := (size * nmemb) % SIZE_MOD
  if sizeof_riak_buffer ≤ (st.riak_buffer_len + len) % SIZE_MOD then
    if sizeof_riak_buffer > st.riak_buffer_len then
      append_chunk st buf ((sizeof_riak_buffer - 1) - st.riak_buffer_len)
    else .error .assert_failed
  else append_chunk st buf len

/-! ## `read_stats` -/

/-- The delimiter string `"\n\r"` of the line loop. -/
def line_delim : List Nat := [10, 13]

/-- The delimiter string `" \t\r\n"` used by `strsplit`. -/
def field_delim : List Nat := [32, 9, 13, 10]

/-- Modelled from the spec: the loop of `strsplit` (collectd `common.c`, not under `src/`),
which splits a line into at most `size` white-space delimited fields with `strtok_r` and
stops once `size` fields are stored.  The first argument counts the free slots of `fields`. -/
def strsplit_loop :
    Nat → List Nat → Option Nat → Option Nat → List Nat → Except Fault (List Nat × List Nat)
  | 0, mem, _, _, fields => .ok (mem, fields)
  | n + 1, mem, ptr, saveptr, fields =>
    match strtok_r mem ptr field_delim saveptr with
    | .error f => .error f
    | .ok (mem1, none, _) => .ok (mem1, fields)
    | .ok (mem1, some t, saveptr1) => strsplit_loop n mem1 none saveptr1 (fields ++ [t])

/-- Modelled from the spec: `strsplit (string, fields, size)` of collectd `common.c` (not
under `src/`), for `size >= 1`: the buffer afterwards and the fields stored; the return
value of the C function is the number of fields. -/
def strsplit (mem : List Nat) (string : Nat) (size : Nat) :
    Except Fault (List Nat × List Nat) :=
  strsplit_loop size mem (some string) none []

/-- The loop `while ((lines[lines_num] = strtok_r (ptr, "\n\r", &saveptr)) != NULL)`.
`lines` holds the pointers stored so far, so `lines_num = lines.length`; the store into
`lines[lines_num]` happens before the test and the array has 160 slots.  The loop body has
no bound check.  Fuel 161 is never used up, since the store at index 160 is a fault. -/
def read_lines :
    Nat → List Nat → Option Nat → Option Nat → List Nat → Except Fault (List Nat × List Nat)
  | 0, _, _, _, _ => .error .no_fuel
  | fuel + 1, mem, ptr, saveptr, lines =>
    match strtok_r mem ptr line_delim saveptr with
    | .error f => .error f
    | .ok (mem1, tok, saveptr1) =>
      if 160 ≤ lines.length then .error (.lines_write lines.length)
      else
        match tok with
        | none => .ok (mem1, lines)
        | some t => read_lines fuel mem1 none saveptr1 (lines ++ [t])

/-- The loop `for (j = 0; j < *metrics_num; j++)` up to its `break`: whether some
`strcmp (fields[0], metrics[j])` is `0`. -/
def find_metric (mem : List Nat) (f0 : Nat) : List (List Nat) → Except Fault Bool
  | [] => .ok false
  | m :: ms =>
    match strcmp (mem.drop f0) m with
    | none => .error (.buffer_read mem.length)
    | some r => if r = 0 then .ok true else find_metric mem f0 ms

/-- The body of `for (i = 0; i < lines_num; i++)` for the line at `line`: the buffer
afterwards and the sample submitted, if any. -/
def process_line (metrics : List String) (type : String) (mem : List Nat) (line : Nat) :
    Except Fault (List Nat × Option Sample) :=
  match strsplit mem line 2 with
  | .error f => .error f
  | .ok (mem1, [key, val]) =>
    let f0 := key + 1
    match strlen mem1 f0 with
    | .error f => .error f
    | .ok n0 =>
      match store mem1 ((f0 : Int) + (n0 : Int) - 2) 0 with
      | .error f => .error f
      | .ok mem2 =>
        match strlen mem2 val with
        | .error f => .error f
        | .ok n1 =>
          match store mem2 ((val : Int) + (n1 : Int) - 1) 0 with
          | .error f => .error f
          | .ok mem3 =>
            match find_metric mem3 f0 (metrics.map str) with
            | .error f => .error f
            | .ok false => .ok (mem3, none)
            | .ok true =>
              match cstring mem3 f0, cstring mem3 val with
              | .ok name, .ok num => .ok (mem3, some ⟨type, name, atoll num⟩)
              | .error f, _ => .error f
              | _, .error f => .error f
  | .ok (mem1, _) => .ok (mem1, none)

/-- What a run of `read_stats` leaves behind: the samples submitted in order, the return
value (`none` when the run ended in a fault), the fault, and the globals. -/
structure Run where
  samples : List Sample
  ret : Option Int
  fault : Option Fault
  state : State
deriving DecidableEq, Repr

/-- The loop `for (i = 0; i < lines_num; i++)` over the stored line pointers. -/
def process_lines (metrics : List String) (type : String) :
    List Nat → List Nat → List Sample → List Sample × List Nat × Option Fault
  | mem, [], acc => (acc, mem, none)
  | mem, line :: rest, acc =>
    match process_line metrics type mem line with
    | .error f => (acc, mem, some f)
    | .ok (mem1, s) => process_lines metrics type mem1 rest (acc ++ s.toList)

/-- One invocation of the write callback by libcurl. -/
structure Chunk where
  buf : Nat → Nat
  size : Nat
  nmemb : Nat

/-- What libcurl does during one `read_stats`: whether `curl_easy_init` returns a handle,
the write-callback invocations made by `curl_easy_perform`, and whether it returns
`CURLE_OK`. -/
structure CurlEnv where
  easy_init_ok : Bool
  chunks : List Chunk
  perform_ok : Bool

/-- The write-callback invocations of one `curl_easy_perform`, in order.  (libcurl stops
a transfer once the callback returns less than it was given; a full buffer takes nothing
from later invocations either, so the globals do not depend on that.) -/
def curl_easy_perform : State → List Chunk → Except Fault State
  | st, [] => .ok st
  | st, c :: cs =>
    match riak_curl_callback st c.buf c.size c.nmemb with
    | .error f => .error f
    | .ok (st1, _) => curl_easy_perform st1 cs

/-- The selection of `metrics` at the head of `read_stats`. -/
def select_metrics (type : String) : Option (List String) :=
  if type = "riak_stats" then some stats_metrics
  else if type = "riak_repl" then some repl_metrics
  else none

/-- The parse pass of `read_stats`, from `ptr = riak_buffer` to `return (0)`. -/
def parse_pass (metrics : List String) (type : String) (st : State) : Run :=
  match read_lines 161 st.riak_buffer (some 0) none [] with
  | .error f => ⟨[], none, some f, st⟩
  | .ok (mem1, lines) =>
    match process_lines metrics type mem1 lines [] with
    | (samples, mem2, some f) => ⟨samples, none, some f, ⟨mem2, st.riak_buffer_len⟩⟩
    | (samples, mem2, none) => ⟨samples, some 0, none, ⟨mem2, 0⟩⟩

/-- The function `read_stats (url, type)`; `url = none` is the NULL pointer. -/
def read_stats (st : State) (env : CurlEnv) (url : Option String) (type : String) : Run :=
  match select_metrics type with
  | none => ⟨[], some (-1), none, st⟩
  | some metrics =>
    if !env.easy_init_ok then ⟨[], some (-1), none, st⟩
    else if url.isNone then ⟨[], some (-1), none, st⟩
    else
      match curl_easy_perform ⟨st.riak_buffer, 0⟩ env.chunks with
      | .error f => ⟨[], none, some f, ⟨st.riak_buffer, 0⟩⟩
      | .ok st1 =>
        if !env.perform_ok then ⟨[], some (-1), none, st1⟩
        else parse_pass metrics type st1

/-! ## `riak_rpc` -/

/-- One encoded term of a reply, as `ei_decode_atom` sees it: an atom with its name (text
without NUL), or a term that does not start with an atom tag. -/
inductive Elem where
  | atom (name : String)
  | other
deriving DecidableEq, Repr

/-- The reply buffer filled by `ei_rpc`: a list or a tuple with its elements, or a term that
is neither; for the latter `ei_decode_tuple_header` fails and leaves `arity` with the
indeterminate value `junk`. -/
inductive Reply where
  | list (elems : List Elem)
  | tuple (elems : List Elem)
  | scalar (e : Elem) (junk : Int)
deriving DecidableEq, Repr

/-- The terms that follow the header in the reply buffer. -/
def Reply.elems : Reply → List Elem
  | .list es => es
  | .tuple es => es
  | .scalar e _ => [e]

/-- The value of `arity` after `ei_decode_list_header` resp. `ei_decode_tuple_header`. -/
def Reply.arity : Reply → Int
  | .list es => es.length
  | .tuple es => es.length
  | .scalar _ junk => junk

/-- What erl_interface, a library outside this repository, does during one `riak_rpc`:
whether `ei_connect_init` succeeds, the descriptor returned by `ei_connect` (`none` on
failure), the reply of `ei_rpc` (`none` on failure), and what the bytes of `reply.buff`
behind the reply term decode to, term by term (`ei_rpc` moves the reply to the front of the
buffer it received the message in, so the bytes behind it are whatever that buffer held). -/
structure EiEnv where
  connect_init_ok : Bool
  connect_fd : Option Nat
  rpc_reply : Option Reply
  behind : Nat → Elem

/-- The term at which the decode cursor stands after `i` successful decodes, once the header
is read.  `riak_rpc` hands the decoder only `reply.buff` and `&reply.index`, never the
element count: behind the elements of a non-empty list comes its tail, which is not an atom;
behind the elements of a tuple, behind the empty list (whose header is the whole term) and
behind a term that is neither list nor tuple come the bytes that follow in the buffer. -/
def Reply.term_at (reply : Reply) (behind : Nat → Elem) (i : Nat) : Elem :=
  match reply with
  | .list [] => behind i
  | .list (e :: es) => (e :: es).getD i .other
  | .tuple es => if i < es.length then es.getD i .other else behind (i - es.length)
  | .scalar e _ => if i = 0 then e else behind (i - 1)

/-- The erl_interface call `ei_decode_atom (reply.buff, &reply.index, atom)` with the
cursor at term `cursor` of the buffer `view`: on an atom it copies the name and moves on;
on anything else it fails and leaves both `atom` and `reply.index` alone. -/
def ei_decode_atom (view : Nat → Elem) (cursor : Nat) : Option (String × Nat) :=
  match view cursor with
  | .atom name => some (name, cursor + 1)
  | .other => none

/-- The loop `for (i = 0; i < index; i++)` of `riak_rpc`: the first argument counts the
iterations left, then come the decode cursor and the current `match`.  Each iteration
starts with `atom[0] = 0; match = -1;`, so a failed decode leaves the empty string in
`atom`. -/
def scan_loop (view : Nat → Elem) (match_string : String) (index : Int) :
    Nat → Nat → Int → Int
  | 0, _, m => m
  | n + 1, cursor, _ =>
    let r := (ei_decode_atom view cursor).getD ("", cursor)
    if r.1 = match_string then
      if index = 0 then 1 else scan_loop view match_string index n r.2 1
    else scan_loop view match_string index n r.2 (-1)

/-- What a run of `riak_rpc` leaves behind: the samples submitted, the return value and the
descriptors that are open afterwards. -/
structure RpcRun where
  samples : List Sample
  ret : Int
  open_fds : List Nat
deriving DecidableEq, Repr

set_option linter.unusedVariables false in
/-- The function `riak_rpc (node, cookie, mod, fun, arg, index, match_string)`; `fds` are
the descriptors open before the call.  The encoding of `arg` only feeds `ei_rpc`. -/
def riak_rpc (fds : List Nat) (env : EiEnv) (node cookie mod func arg : String)
    (index : Int) (match_string : String) : RpcRun :=
  if !env.connect_init_ok then ⟨[], -1, fds⟩
  else
    match env.connect_fd with
    | none => ⟨[], -1, fds⟩
    | some fd =>
      match env.rpc_reply with
      | none => ⟨[], -1, fd :: fds⟩
      | some reply =>
        let index1 := if index = 0 then reply.arity else index
        let m := scan_loop (reply.term_at env.behind) match_string index1 index1.toNat 0 (-1)
        ⟨[⟨"riak_rpc", str func, m⟩], 0, (fd :: fds).erase fd⟩

/-! ## Vocabulary of the statements -/

/-- The fault of a computation, if it ended in one. -/
def fault_of {α : Type} : Except Fault α → Option Fault
  | .ok _ => none
  | .error f => some f

/-- A token: non-empty, without NUL and without a delimiter. -/
def is_token (delim : List Nat) (tok : List Nat) : Prop :=
  tok ≠ [] ∧ ∀ x ∈ tok, x ≠ 0 ∧ x ∉ delim

/-- A line `"key": <decimal integer>,` of a well-formed body: the bytes of the key, the
sign and the decimal digits (most significant first) of the integer. -/
structure StatLine where
  key : List Nat
  neg : Bool
  digits : List Nat
deriving DecidableEq, Repr

/-- The integer written on the line. -/
def StatLine.value (l : StatLine) : Int :=
  if l.neg then -((Nat.ofDigits 10 l.digits.reverse : Nat) : Int)
  else ((Nat.ofDigits 10 l.digits.reverse : Nat) : Int)

/-- The bytes of the integer as written: an optional `-` and the digits. -/
def StatLine.numeral (l : StatLine) : List Nat :=
  (if l.neg then [45] else []) ++ l.digits.map (· + 48)

/-- The bytes of the line: `"key": <decimal integer>,`. -/
def StatLine.bytes (l : StatLine) : List Nat :=
  34 :: l.key ++ [34, 58, 32] ++ l.numeral ++ [44]

/-- The bytes of the line once `read_stats` has processed it: the closing quote, the blank
and the comma are overwritten by NUL. -/
def StatLine.processed (l : StatLine) : List Nat :=
  34 :: l.key ++ [0, 58, 0] ++ l.numeral ++ [0]

/-- The line is well formed: the key has no NUL and no white space, there is at least one
digit, and the integer fits `long long`. -/
def StatLine.wf (l : StatLine) : Prop :=
  (∀ c ∈ l.key, c ≠ 0 ∧ c ∉ field_delim) ∧ l.digits ≠ [] ∧ (∀ d ∈ l.digits, d < 10) ∧
    LLONG_MIN ≤ l.value ∧ l.value ≤ LLONG_MAX

instance (l : StatLine) : Decidable l.wf := by
  unfold StatLine.wf
  infer_instance

/-- A well-formed body: the lines, separated by a newline; `nl` tells whether the last line
is followed by a newline too. -/
def body_of : List StatLine → Bool → List Nat
  | [], _ => []
  | [l], nl => l.bytes ++ (if nl then [10] else [])
  | l :: l1 :: ls, nl => l.bytes ++ 10 :: body_of (l1 :: ls) nl

/-- The samples a well-formed body stands for: one per line whose key is on the whitelist,
in line order. -/
def expected_samples (metrics : List String) (type : String) (lines : List StatLine) :
    List Sample :=
  (lines.filter (fun l => l.key ∈ metrics.map str)).map (fun l => ⟨type, l.key, l.value⟩)

/-- A fetch that succeeds and hands the body to the write callback in the given pieces. -/
def deliver_chunks (chunks : List (List Nat)) : CurlEnv :=
  ⟨true, chunks.map (fun c => ⟨fun i => c.getD i 0, 1, c.length⟩), true⟩

/-- The given byte strings, each followed by the byte `t`. -/
def terminated (t : Nat) : List (List Nat) → List Nat
  | [] => []
  | L :: Ls => L ++ t :: terminated t Ls

/-- The offsets at which the byte strings of `terminated t Ls` start, when the first one
starts at `p`. -/
def offsets : Nat → List (List Nat) → List Nat
  | _, [] => []
  | p, L :: Ls => p :: offsets (p + L.length + 1) Ls

/-! ## `riak_read` -/

/-- One call made by `riak_read`, with its arguments. -/
inductive Call where
  | read_stats (url : Option String) (type : String)
  | riak_rpc (node cookie mod func arg : String) (index : Int) (match_string : String)
deriving DecidableEq, Repr

/-- What the network does during one tick: the two fetches and the four remote calls, in
the order of `riak_read`. -/
structure Tick where
  stats : CurlEnv
  repl : CurlEnv
  ring_status : EiEnv
  ringready : EiEnv
  services : EiEnv
  ping : EiEnv

/-- What a run of `riak_read` leaves behind: the calls made in order, the samples
submitted, the return value (`none` until `return (0)` is reached), the fault if the run
left defined behaviour, the globals and the descriptors that are open. -/
structure ReadRun where
  calls : List Call
  samples : List Sample
  ret : Option Int
  fault : Option Fault
  state : State
  open_fds : List Nat
deriving DecidableEq, Repr

/-- The run at the entry of `riak_read`: nothing called yet. -/
def ReadRun.start (st : State) (fds : List Nat) : ReadRun :=
  ⟨[], [], none, none, st, fds⟩

/-- A statement `read_stats (url, type);` of `riak_read`, executed in the run so far: the
call is made on the current globals, its samples and globals are taken over and its return
value is dropped.  Nothing is executed once the run has left defined behaviour. -/
def ReadRun.call_read_stats (run : ReadRun) (env : CurlEnv) (url : Option String)
    (type : String) : ReadRun :=
  match run.fault with
  | some _ => run
  | none =>
    ⟨run.calls ++ [.read_stats url type],
      run.samples ++ (read_stats run.state env url type).samples, none,
      (read_stats run.state env url type).fault, (read_stats run.state env url type).state,
      run.open_fds⟩

/-- A statement `riak_rpc (node, cookie, mod, fun, arg, index, match_string);` of
`riak_read`, executed in the run so far: the call is made on the descriptors open now, its
samples and descriptors are taken over and its return value is dropped. -/
def ReadRun.call_riak_rpc (run : ReadRun) (env : EiEnv) (node cookie mod func arg : String)
    (index : Int) (match_string : String) : ReadRun :=
  match run.fault with
  | some _ => run
  | none =>
    ⟨run.calls ++ [.riak_rpc node cookie mod func arg index match_string],
      run.samples
        ++ (riak_rpc run.open_fds env node cookie mod func arg index match_string).samples,
      none, none, run.state,
      (riak_rpc run.open_fds env node cookie mod func arg index match_string).open_fds⟩

/-- The statement `return (0);` at the end of `riak_read`. -/
def ReadRun.return_zero (run : ReadRun) : ReadRun :=
  match run.fault with
  | some _ => run
  | none => ⟨run.calls, run.samples, some 0, none, run.state, run.open_fds⟩

/-- The function `riak_read ()`, statement by statement; `stats_url` and `repl_url` are the
globals set by `config` (`none` is NULL), `st` the buffer globals and `fds` the descriptors
open at entry. -/
def riak_read (st : State) (fds : List Nat) (stats_url repl_url : Option String)
    (tick : Tick) : ReadRun :=
  (((((((ReadRun.start st fds).call_read_stats tick.stats stats_url "riak_stats"
    ).call_read_stats tick.repl repl_url "riak_repl"
    ).call_riak_rpc tick.ring_status "riak@127.0.0.1" "riak" "riak_core_status"
        "ring_status" "" 3 ""
    ).call_riak_rpc tick.ringready "riak@127.0.0.1" "riak" "riak_core_status" "ringready" ""
        1 "ok"
    ).call_riak_rpc tick.services "riak@127.0.0.1" "riak" "riak_core_node_watcher"
        "services" "" 1 "riak_kv"
    ).call_riak_rpc tick.ping "riak@127.0.0.1" "riak" "net_adm" "ping" "riak@127.0.0.1" 1
        "pong"
    ).return_zero

/-! ## Vocabulary for the probe loop and for values -/

/-- The iterations of the loop `for (i = 0; i < index; i++)` of `riak_rpc`, one entry per
iteration that is executed: the content of `atom` after the decode and the value of `match`
at the end of the iteration.  The first argument counts the iterations left, the second is
the decode cursor; the `break` ends the list. -/
def scan_trace (view : Nat → Elem) (match_string : String) (index : Int) :
    Nat → Nat → List (String × Int)
  | 0, _ => []
  | n + 1, cursor =>
    let r := (ei_decode_atom view cursor).getD ("", cursor)
    if r.1 = match_string then
      if index = 0 then [(r.1, 1)] else (r.1, 1) :: scan_trace view match_string index n r.2
    else (r.1, -1) :: scan_trace view match_string index n r.2

/-- Whether a term is an atom. -/
def Elem.is_atom : Elem → Bool
  | .atom _ => true
  | .other => false

/-- The name of an atom, the empty string for any other term. -/
def Elem.name : Elem → String
  | .atom name => name
  | .other => ""

/-- The content of `atom` after the decode of iteration `i` (counted from 0) on the buffer
`view`: the name of term `i` when the terms `0..i` are all atoms, and the empty string
otherwise, since a failed decode does not move the cursor and every later decode fails at
the same term. -/
def decoded_at (view : Nat → Elem) (i : Nat) : String :=
  if (List.range (i + 1)).all (fun j => (view j).is_atom) then (view i).name else ""

/-- The decode cursor `c` at the start of iteration `i`: it stands at term `i` when every
earlier decode succeeded, and otherwise at an earlier term that is not an atom. -/
def cursor_inv (view : Nat → Elem) (i c : Nat) : Prop :=
  (c = i ∧ ∀ j, j < i → (view j).is_atom = true) ∨ (c < i ∧ (view c).is_atom = false)

/-- Whether the bytes do not start, after optional white space and an optional sign, with
a decimal digit. -/
def no_leading_digit (s : List Nat) : Bool :=
  match s.dropWhile isspace with
  | 45 :: r => r.head?.all (fun c => !isdigit c)
  | 43 :: r => r.head?.all (fun c => !isdigit c)
  | r => r.head?.all (fun c => !isdigit c)

instance (delim tok : List Nat) : Decidable (is_token delim tok) := by
  unfold is_token
  infer_instance

/-! ## Whitelist filter -/

theorem strcmp_zero_cstr : ∀ (m l : List Nat), 0 ∉ m → strcmp l m = some 0 → cstr l = some m
  | [], [], _, h => by simp [strcmp] at h
  | [], c :: cs, _, h => by
      simp only [strcmp, Option.some.injEq] at h
      have hc : c = 0 := by exact_mod_cast h
      simp [cstr, hc]
  | d :: ds, [], _, h => by simp [strcmp] at h
  | d :: ds, c :: cs, hm, h => by
      simp only [List.mem_cons, not_or] at hm
      by_cases hcd : c = d
      · subst hcd
        simp only [strcmp, if_true] at h
        have ih := strcmp_zero_cstr ds cs hm.2 h
        have hc : c ≠ 0 := fun e => hm.1 e.symm
        simp [cstr, hc, ih]
      · simp only [strcmp, hcd, if_false, Option.some.injEq] at h
        exact absurd (by omega) hcd

theorem find_metric_true (mem : List Nat) (f0 : Nat) :
    ∀ ms : List (List Nat), find_metric mem f0 ms = .ok true →
      ∃ m ∈ ms, strcmp (mem.drop f0) m = some 0
  | [], h => by simp [find_metric] at h
  | m :: ms, h => by
      unfold find_metric at h
      split at h
      · exact absurd h (by simp)
      · rename_i r hr
        by_cases h0 : r = 0
        · subst h0
          exact ⟨m, List.mem_cons_self _ _, hr⟩
        · simp only [h0, if_false] at h
          obtain ⟨m', hm', hs⟩ := find_metric_true mem f0 ms h
          exact ⟨m', List.mem_cons_of_mem _ hm', hs⟩

theorem process_line_sample (metrics : List String) (type : String) (mem mem' : List Nat)
    (line : Nat) (s : Sample) (hz : ∀ m ∈ metrics.map str, 0 ∉ m)
    (h : process_line metrics type mem line = .ok (mem', some s)) :
    s.type = type ∧ s.type_instance ∈ metrics.map str := by
  unfold process_line at h
  split at h
  · exact absurd h (by simp)
  · simp only at h
    split at h
    · exact absurd h (by simp)
    split at h
    · exact absurd h (by simp)
    split at h
    · exact absurd h (by simp)
    split at h
    · exact absurd h (by simp)
    split at h
    · exact absurd h (by simp)
    · exact absurd h (by simp)
    · rename_i mem3 _ hfind
      obtain ⟨m, hm, hs⟩ := find_metric_true _ _ _ hfind
      split at h
      · rename_i name num hname hnum
        simp only [Except.ok.injEq, Prod.mk.injEq, Option.some.injEq] at h
        obtain ⟨_, rfl⟩ := h
        refine ⟨rfl, ?_⟩
        have := strcmp_zero_cstr m _ (hz m hm) hs
        simp only [cstring, this, Except.ok.injEq] at hname
        subst hname
        exact hm
      · exact absurd h (by simp)
      · exact absurd h (by simp)
  · exact absurd h (by simp)

theorem process_lines_samples (metrics : List String) (type : String) (P : Sample → Prop)
    (hP : ∀ mem mem1 line s, process_line metrics type mem line = .ok (mem1, some s) → P s) :
    ∀ (lines mem : List Nat) (acc : List Sample), (∀ s ∈ acc, P s) →
      ∀ s ∈ (process_lines metrics type mem lines acc).1, P s
  | [], mem, acc, hacc => by simpa [process_lines] using hacc
  | line :: rest, mem, acc, hacc => by
      unfold process_lines
      split
      · simpa using hacc
      · rename_i mem1 s hs
        apply process_lines_samples metrics type P hP rest mem1
        intro x hx
        rcases List.mem_append.1 hx with hx | hx
        · exact hacc x hx
        · cases s with
          | none => simp at hx
          | some s0 =>
            simp only [Option.toList, List.mem_singleton] at hx
            subst hx
            exact hP _ _ _ _ hs

theorem parse_pass_samples (metrics : List String) (type : String) (st : State)
    (hz : ∀ m ∈ metrics.map str, 0 ∉ m) :
    ∀ s ∈ (parse_pass metrics type st).samples,
      s.type = type ∧ s.type_instance ∈ metrics.map str := by
  intro s hs
  unfold parse_pass at hs
  split at hs
  · simp at hs
  · rename_i mem1 lines _
    have key := process_lines_samples metrics type
      (fun s => s.type = type ∧ s.type_instance ∈ metrics.map str)
      (fun mem mem1 line s h => process_line_sample metrics type mem mem1 line s hz h)
      lines mem1 [] (by simp)
    split at hs
    · rename_i samples mem2 f heq
      rw [heq] at key
      exact key s hs
    · rename_i samples mem2 heq
      rw [heq] at key
      exact key s hs

theorem read_stats_samples_of_select (st : State) (env : CurlEnv) (url : Option String)
    (type : String) (s : Sample) (hs : s ∈ (read_stats st env url type).samples) :
    ∃ metrics, select_metrics type = some metrics ∧
      s ∈ (parse_pass metrics type
        ((curl_easy_perform ⟨st.riak_buffer, 0⟩ env.chunks).toOption.getD st)).samples := by
  unfold read_stats at hs
  split at hs
  · simp at hs
  · rename_i metrics hsel
    refine ⟨metrics, hsel, ?_⟩
    split at hs
    · simp at hs
    split at hs
    · simp at hs
    split at hs
    · simp at hs
    · rename_i st1 hperf
      split at hs
      · simp at hs
      · simpa [hperf, Except.toOption] using hs

theorem stats_metrics_nul_free : ∀ m ∈ stats_metrics.map str, 0 ∉ m := by decide

theorem repl_metrics_nul_free : ∀ m ∈ repl_metrics.map str, 0 ∉ m := by decide

/-- C1: every sample submitted by `read_stats` for the type "riak_stats" carries that type
and a `type_instance` from `stats_metrics`, and every sample submitted for "riak_repl"
carries a `type_instance` from `repl_metrics`, whatever the prior globals, the URL and the
bytes libcurl delivers; for any other type nothing is submitted. -/
theorem read_stats_whitelist (st : State) (env : CurlEnv) (url : Option String)
    (type : String) (s : Sample) (hs : s ∈ (read_stats st env url type).samples) :
    s.type = type ∧
      ((type = "riak_stats" ∧ s.type_instance ∈ stats_metrics.map str) ∨
       (type = "riak_repl" ∧ s.type_instance ∈ repl_metrics.map str)) := by
  obtain ⟨metrics, hsel, hmem⟩ := read_stats_samples_of_select st env url type s hs
  unfold select_metrics at hsel
  split at hsel
  · rename_i ht
    simp only [Option.some.injEq] at hsel
    subst hsel
    have := parse_pass_samples stats_metrics type _ stats_metrics_nul_free s hmem
    exact ⟨this.1, Or.inl ⟨ht, this.2⟩⟩
  · split at hsel
    · rename_i ht
      simp only [Option.some.injEq] at hsel
      subst hsel
      have := parse_pass_samples repl_metrics type _ repl_metrics_nul_free s hmem
      exact ⟨this.1, Or.inr ⟨ht, this.2⟩⟩
    · simp at hsel

/-! ## The fetch buffer -/

theorem SIZE_MOD_eq : SIZE_MOD = 18446744073709551616 := by
  norm_num [SIZE_MOD]

theorem memcpy_ok (mem : List Nat) (dst : Nat) (src : Nat → Nat) (len : Nat)
    (h : dst + len ≤ mem.length) :
    memcpy mem dst src len
      = .ok (mem.take dst ++ (List.range len).map src ++ mem.drop (dst + len)) := by
  simp [memcpy, h]

theorem memcpy_length (mem : List Nat) (dst : Nat) (src : Nat → Nat) (len : Nat)
    (h : dst + len ≤ mem.length) :
    (mem.take dst ++ (List.range len).map src ++ mem.drop (dst + len)).length = mem.length := by
  simp only [List.length_append, List.length_take, List.length_map, List.length_range,
    List.length_drop]
  omega

theorem store_ok (mem : List Nat) (i : Nat) (v : Nat) (h : i < mem.length) :
    store mem (i : Int) v = .ok (mem.set i v) := by
  have h1 : (0 : Int) ≤ (i : Int) ∧ (i : Int) < (mem.length : Int) :=
    ⟨Int.ofNat_nonneg _, by exact_mod_cast h⟩
  simp [store, h1]

theorem take_set_self (l : List Nat) (m a : Nat) : (l.set m a).take m = l.take m :=
  List.ext_getElem? fun i => by
    rw [List.getElem?_take, List.getElem?_take]
    split
    · rw [List.getElem?_set_ne (by omega)]
    · rfl

theorem append_chunk_ok (st : State) (buf : Nat → Nat) (len : Nat)
    (hlen : st.riak_buffer.length = sizeof_riak_buffer)
    (h : st.riak_buffer_len + len < sizeof_riak_buffer) :
    ∃ st1, append_chunk st buf len = .ok (st1, len) ∧
      st1.riak_buffer.length = sizeof_riak_buffer ∧
      st1.riak_buffer_len = st.riak_buffer_len + len ∧
      (0 < len → st1.riak_buffer.get? st1.riak_buffer_len = some 0) ∧
      (len = 0 → st1 = st) ∧
      st1.riak_buffer.take st1.riak_buffer_len
        = st.riak_buffer.take st.riak_buffer_len ++ (List.range len).map buf := by
  unfold append_chunk
  by_cases h0 : len = 0
  · subst h0
    exact ⟨st, by simp, hlen, by simp, by simp, fun _ => rfl, by simp⟩
  · have hs : sizeof_riak_buffer = 16384 := rfl
    have hle : st.riak_buffer_len + len ≤ st.riak_buffer.length := by omega
    have hmod : (st.riak_buffer_len + len) % SIZE_MOD = st.riak_buffer_len + len := by
      rw [SIZE_MOD_eq]; omega
    have hl2 := memcpy_length st.riak_buffer st.riak_buffer_len buf len hle
    have hlt : st.riak_buffer_len + len
        < (st.riak_buffer.take st.riak_buffer_len ++ (List.range len).map buf
            ++ st.riak_buffer.drop (st.riak_buffer_len + len)).length := by
      rw [hl2]; omega
    simp only [h0, if_false, memcpy_ok _ _ _ _ hle, hmod, store_ok _ _ _ hlt]
    refine ⟨_, rfl, ?_, rfl, fun _ => ?_, fun e => False.elim e, ?_⟩
    · simp only [List.length_set]
      rw [hl2, hlen]
    · simp only [List.get?_eq_getElem?]
      rw [List.getElem?_set_self hlt]
    · simp only []
      rw [take_set_self]
      exact List.take_left' (by
        simp only [List.length_append, List.length_take, List.length_map, List.length_range]
        omega)

/-- C6 (as amended): when `riak_buffer_len <= 16383`, the array has its 16384 bytes and
`riak_buffer_len + len` does not wrap around in `size_t` (with `len = size * nmemb` taken
in `size_t`), `riak_curl_callback` stays inside `riak_buffer` (it ends without a fault and
the array keeps its size), leaves `riak_buffer_len <= 16383`, and, when it appended at least
one byte, leaves `riak_buffer[riak_buffer_len] = 0`. -/
theorem riak_curl_callback_invariant (st : State) (buf : Nat → Nat) (size nmemb : Nat)
    (hsize : st.riak_buffer.length = sizeof_riak_buffer)
    (hlen : st.riak_buffer_len ≤ sizeof_riak_buffer - 1)
    (hwrap : st.riak_buffer_len + (size * nmemb) % SIZE_MOD < SIZE_MOD) :
    ∃ st1 r, riak_curl_callback st buf size nmemb = .ok (st1, r) ∧
      st1.riak_buffer.length = sizeof_riak_buffer ∧
      st1.riak_buffer_len ≤ sizeof_riak_buffer - 1 ∧
      (0 < r → st1.riak_buffer.get? st1.riak_buffer_len = some 0) := by
  have hs : sizeof_riak_buffer = 16384 := rfl
  unfold riak_curl_callback
  simp only [Nat.mod_eq_of_lt hwrap]
  by_cases hbig : sizeof_riak_buffer ≤ st.riak_buffer_len + (size * nmemb) % SIZE_MOD
  · have hgt : sizeof_riak_buffer > st.riak_buffer_len := by omega
    simp only [hbig, hgt, if_true]
    obtain ⟨st1, h1, h2, h3, h4, _⟩ := append_chunk_ok st buf
      (sizeof_riak_buffer - 1 - st.riak_buffer_len) hsize (by omega)
    exact ⟨st1, _, h1, h2, by omega, h4⟩
  · simp only [hbig, if_false]
    obtain ⟨st1, h1, h2, h3, h4, _⟩ := append_chunk_ok st buf ((size * nmemb) % SIZE_MOD)
      hsize (by omega)
    exact ⟨st1, _, h1, h2, by omega, h4⟩

/-- C6, witness: a chunk of 20000 bytes offered to a buffer that holds 100 bytes. -/
theorem riak_curl_callback_invariant_witness :
    ∃ st1 r, riak_curl_callback ⟨List.replicate sizeof_riak_buffer 0, 100⟩ (fun _ => 65)
        1 20000 = .ok (st1, r) ∧
      st1.riak_buffer.length = sizeof_riak_buffer ∧
      st1.riak_buffer_len ≤ sizeof_riak_buffer - 1 ∧
      (0 < r → st1.riak_buffer.get? st1.riak_buffer_len = some 0) :=
  riak_curl_callback_invariant ⟨List.replicate sizeof_riak_buffer 0, 100⟩ (fun _ => 65)
    1 20000 (List.length_replicate _ _) (by decide) (by decide)

/-- C6, counterexample: with `riak_buffer_len = 1`, `size = 2 ^ 64 - 1` and `nmemb = 1` the
sum `riak_buffer_len + len` wraps to `0`, the truncation is skipped and `memcpy` is asked to
write `2 ^ 64 - 1` bytes from `riak_buffer[1]` on, which leaves the array at index 16384,
although `riak_buffer_len <= 16383` held before the call. -/
theorem riak_curl_callback_wraps :
    (1 : Nat) ≤ sizeof_riak_buffer - 1 ∧
    fault_of (riak_curl_callback ⟨List.replicate sizeof_riak_buffer 0, 1⟩ (fun _ => 65)
      (2 ^ 64 - 1) 1) = some (.buffer_write 16384) := by
  refine ⟨by decide, ?_⟩
  decide!

/-! ## The scan of the reply -/

theorem riak_rpc_replied (fds : List Nat) (fd : Nat) (reply : Reply) (behind : Nat → Elem)
    (node cookie mod func arg : String) (index : Int) (match_string : String) :
    (riak_rpc fds ⟨true, some fd, some reply, behind⟩ node cookie mod func arg index
        match_string).samples
      = [⟨"riak_rpc", str func,
          scan_loop (reply.term_at behind) match_string
            (if index = 0 then reply.arity else index)
            (if index = 0 then reply.arity else index).toNat 0 (-1)⟩] := by
  simp [riak_rpc]

theorem decoded_at_atoms (view : Nat → Elem) (i : Nat)
    (h : ∀ j, j ≤ i → (view j).is_atom = true) : decoded_at view i = (view i).name := by
  unfold decoded_at
  rw [if_pos]
  rw [List.all_eq_true]
  intro j hj
  exact h j (by have := List.mem_range.1 hj; omega)

theorem decoded_at_stuck (view : Nat → Elem) (i j : Nat) (hj : j ≤ i)
    (h : (view j).is_atom = false) : decoded_at view i = "" := by
  unfold decoded_at
  rw [if_neg]
  rw [List.all_eq_true]
  intro hall
  have := hall j (List.mem_range.2 (by omega))
  rw [h] at this
  exact absurd this (by decide)

theorem cursor_inv_start (view : Nat → Elem) : cursor_inv view 0 0 :=
  Or.inl ⟨rfl, fun _ hj => absurd hj (Nat.not_lt_zero _)⟩

theorem decode_step (view : Nat → Elem) (i c : Nat) (h : cursor_inv view i c) :
    ((ei_decode_atom view c).getD ("", c)).1 = decoded_at view i ∧
      cursor_inv view (i + 1) ((ei_decode_atom view c).getD ("", c)).2 := by
  rcases h with ⟨rfl, hall⟩ | ⟨hlt, hna⟩
  · cases hv : view c with
    | atom a =>
      have hat : ∀ j, j ≤ c → (view j).is_atom = true := by
        intro j hj
        rcases Nat.lt_or_eq_of_le hj with h1 | h1
        · exact hall j h1
        · rw [h1, hv]; rfl
      refine ⟨?_, Or.inl ⟨?_, ?_⟩⟩
      · rw [decoded_at_atoms view c hat]
        simp [ei_decode_atom, hv, Elem.name]
      · simp [ei_decode_atom, hv]
      · intro j hj
        exact hat j (by omega)
    | other =>
      have hna : (view c).is_atom = false := by rw [hv]; rfl
      refine ⟨?_, Or.inr ⟨?_, ?_⟩⟩
      · rw [decoded_at_stuck view c c (Nat.le_refl c) hna]
        simp [ei_decode_atom, hv]
      · simp [ei_decode_atom, hv]
      · simpa [ei_decode_atom, hv] using hna
  · have hv : view c = .other := by
      cases hv : view c with
      | atom a => rw [hv] at hna; simp [Elem.is_atom] at hna
      | other => rfl
    refine ⟨?_, Or.inr ⟨?_, ?_⟩⟩
    · rw [decoded_at_stuck view i c (by omega) hna]
      simp [ei_decode_atom, hv]
    · simp only [ei_decode_atom, hv, Option.getD_none]
      omega
    · simpa [ei_decode_atom, hv] using hna

theorem scan_loop_last (view : Nat → Elem) (match_string : String) (index : Int)
    (hidx : index ≠ 0) :
    ∀ (n i c : Nat) (m : Int), cursor_inv view i c →
      scan_loop view match_string index (n + 1) c m
        = if decoded_at view (i + n) = match_string then 1 else -1
  | 0, i, c, m, h => by
      obtain ⟨h1, _⟩ := decode_step view i c h
      rw [scan_loop]
      simp only [h1, hidx, if_false, scan_loop, Nat.add_zero]
  | n + 1, i, c, m, h => by
      obtain ⟨h1, h2⟩ := decode_step view i c h
      have e : i + 1 + n = i + (n + 1) := by omega
      rw [scan_loop]
      simp only [h1, hidx, if_false]
      rw [scan_loop_last view match_string index hidx n (i + 1) _ 1 h2,
        scan_loop_last view match_string index hidx n (i + 1) _ (-1) h2, e]
      split <;> rfl

theorem scan_trace_all (view : Nat → Elem) (match_string : String) (index : Int)
    (hidx : index ≠ 0) :
    ∀ (n i c : Nat), cursor_inv view i c →
      scan_trace view match_string index n c
        = (List.range' i n).map
            (fun j => (decoded_at view j,
              if decoded_at view j = match_string then (1 : Int) else -1))
  | 0, i, c, _ => by simp [scan_trace]
  | n + 1, i, c, h => by
      obtain ⟨h1, h2⟩ := decode_step view i c h
      rw [scan_trace]
      simp only [h1, hidx, if_false]
      rw [scan_trace_all view match_string index hidx n (i + 1) _ h2]
      simp only [List.range'_succ, List.map_cons]
      split <;> simp_all

theorem riak_rpc_window (fds : List Nat) (fd : Nat) (reply : Reply) (behind : Nat → Elem)
    (node cookie mod func arg : String) (k : Nat) (match_string : String) (hpos : 0 < k) :
    (riak_rpc fds ⟨true, some fd, some reply, behind⟩ node cookie mod func arg (k : Int)
        match_string).samples
      = [⟨"riak_rpc", str func,
          if decoded_at (reply.term_at behind) (k - 1) = match_string then 1 else -1⟩] := by
  have hk : ((k : Int) ≠ 0) := by exact_mod_cast (by omega : k ≠ 0)
  obtain ⟨n, rfl⟩ : ∃ n, k = n + 1 := ⟨k - 1, by omega⟩
  rw [riak_rpc_replied]
  simp only [hk, if_false, Int.toNat_ofNat]
  rw [scan_loop_last _ match_string _ hk n 0 0 (-1) (cursor_inv_start _)]
  simp

theorem term_at_elems (reply : Reply) (behind : Nat → Elem) (i : Nat)
    (h : i < reply.elems.length) : reply.term_at behind i = reply.elems.getD i .other := by
  cases reply with
  | list es =>
    cases es with
    | nil => simp [Reply.elems] at h
    | cons e es => rfl
  | tuple es =>
    simp only [Reply.elems] at h
    simp [Reply.term_at, Reply.elems, h]
  | scalar e junk =>
    simp only [Reply.elems, List.length_singleton] at h
    have : i = 0 := by omega
    subst this
    simp [Reply.term_at, Reply.elems]

/-- C7 (as amended): for a reply that is a list or a tuple of atoms and a window
`0 < k <= arity`, `riak_rpc` submits one sample whose value is `1` when the atom at the last
scanned position `k - 1` equals `match_string`, and `-1` otherwise, whatever follows the
reply in the buffer. -/
theorem riak_rpc_last_scanned (fds : List Nat) (fd : Nat) (reply : Reply)
    (behind : Nat → Elem) (names : List String) (node cookie mod func arg : String) (k : Nat)
    (match_string : String)
    (hshape : reply = .list (names.map Elem.atom) ∨ reply = .tuple (names.map Elem.atom))
    (hpos : 0 < k) (hle : k ≤ names.length) :
    (riak_rpc fds ⟨true, some fd, some reply, behind⟩ node cookie mod func arg (k : Int)
        match_string).samples
      = [⟨"riak_rpc", str func, if names.get? (k - 1) = some match_string then 1 else -1⟩] := by
  have helems : reply.elems = names.map Elem.atom := by
    rcases hshape with h | h <;> simp [h, Reply.elems]
  have hview : ∀ j, j < names.length →
      reply.term_at behind j = .atom (names.getD j "") := by
    intro j hj
    rw [term_at_elems reply behind j (by rw [helems]; simpa using hj), helems]
    simp [List.getD_eq_getElem?_getD, List.getElem?_map, List.getElem?_eq_getElem hj]
  have hdec : decoded_at (reply.term_at behind) (k - 1) = names.getD (k - 1) "" := by
    rw [decoded_at_atoms _ _ (fun j hj => by rw [hview j (by omega)]; rfl),
      hview (k - 1) (by omega)]
    rfl
  have hget : names.get? (k - 1) = some (names.getD (k - 1) "") := by
    have hlt : k - 1 < names.length := by omega
    simp [List.get?_eq_getElem?, List.getD_eq_getElem?_getD, List.getElem?_eq_getElem hlt]
  rw [riak_rpc_window fds fd reply behind node cookie mod func arg k match_string hpos, hdec,
    hget]
  simp

/-- C7, witness: the tuple `{ok, ok, pong}` with window 3 and `match_string = "pong"` gives
the value 1. -/
theorem riak_rpc_last_scanned_witness :
    (riak_rpc [] ⟨true, some 3, some (.tuple (["ok", "ok", "pong"].map Elem.atom)),
          fun _ => .other⟩
        "riak@127.0.0.1" "riak" "net_adm" "ping" "" ((3 : Nat) : Int) "pong").samples
      = [⟨"riak_rpc", str "ping",
          if ["ok", "ok", "pong"].get? (3 - 1) = some "pong" then 1 else -1⟩]
    ∧ (if ["ok", "ok", "pong"].get? (3 - 1) = some "pong" then (1 : Int) else -1) = 1 :=
  ⟨riak_rpc_last_scanned [] 3 _ (fun _ => .other) ["ok", "ok", "pong"] _ _ _ _ _ 3 "pong"
    (Or.inr rfl) (by decide) (by decide), by decide⟩

/-- C7, counterexample: for the tuple `{pong, ok, ok}` with window 3 the first scanned
position holds `pong`, yet the value submitted is `-1`. -/
theorem riak_rpc_earlier_match_lost :
    Elem.atom "pong" ∈ List.take 3 (Reply.tuple [.atom "pong", .atom "ok", .atom "ok"]).elems ∧
    (riak_rpc [] ⟨true, some 3, some (.tuple [.atom "pong", .atom "ok", .atom "ok"]),
          fun _ => .other⟩
        "riak@127.0.0.1" "riak" "net_adm" "ping" "" 3 "pong").samples
      = [⟨"riak_rpc", str "ping", -1⟩] := by
  decide

/-- C9 (as amended): when a reply has fewer elements than a positive window and a decode
fails at one of its elements or at the position behind the last one (as it always does for a
non-empty list, whose tail follows the elements; for a tuple, when an element is not an atom
or the bytes that follow the reply in the buffer are not an atom), the decode of the last
iteration fails and leaves the empty string in `atom`: `riak_rpc` submits `-1` for every
non-empty `match_string`, and `1` for the empty `match_string`. -/
theorem riak_rpc_short_reply (fds : List Nat) (fd : Nat) (reply : Reply)
    (behind : Nat → Elem) (node cookie mod func arg : String) (k : Nat)
    (match_string : String)
    (hshort : reply.elems.length < k)
    (hfail : (∃ e es, reply = Reply.list (e :: es)) ∨
      ∃ j, j ≤ reply.elems.length ∧ (reply.term_at behind j).is_atom = false) :
    (riak_rpc fds ⟨true, some fd, some reply, behind⟩ node cookie mod func arg (k : Int)
        match_string).samples
      = [⟨"riak_rpc", str func, if match_string = "" then 1 else -1⟩] := by
  have hna : ∃ j, j ≤ reply.elems.length ∧ (reply.term_at behind j).is_atom = false := by
    rcases hfail with ⟨e, es, rfl⟩ | h
    · exact ⟨(e :: es).length, Nat.le_refl _, by
        simp [Reply.term_at, List.getD_eq_getElem?_getD, Elem.is_atom]⟩
    · exact h
  obtain ⟨j, hj, hj2⟩ := hna
  rw [riak_rpc_window _ _ _ _ _ _ _ _ _ _ _ (by omega),
    decoded_at_stuck _ (k - 1) j (by omega) hj2]
  simp [eq_comm]

/-- C9, witness: the list `[ok, ok]` scanned with window 3 for `pong` gives `-1`. -/
theorem riak_rpc_short_reply_witness :
    (riak_rpc [] ⟨true, some 3, some (.list [.atom "ok", .atom "ok"]), fun _ => .atom "pong"⟩
        "riak@127.0.0.1" "riak" "net_adm" "ping" "" ((3 : Nat) : Int) "pong").samples
      = [⟨"riak_rpc", str "ping", if "pong" = "" then 1 else -1⟩] :=
  riak_rpc_short_reply [] 3 (.list [.atom "ok", .atom "ok"]) (fun _ => .atom "pong") _ _ _ _ _
    3 "pong" (by decide) (Or.inl ⟨_, _, rfl⟩)

/-- C9, counterexample: the call of the ring_status probe (window 3, empty `match_string`)
on the list `[ok, ok]`: no element present equals the empty string, the third decode meets
the tail of the list and fails, and the value submitted is `1`, whatever follows in the
buffer. -/
theorem riak_rpc_failed_decode_matches :
    (∀ e ∈ (Reply.list [.atom "ok", .atom "ok"]).elems, e ≠ Elem.atom "") ∧
    (Reply.list [.atom "ok", .atom "ok"]).arity < 3 ∧
    (riak_rpc [] ⟨true, some 3, some (.list [.atom "ok", .atom "ok"]), fun _ => .other⟩
        "riak@127.0.0.1" "riak" "riak_core_status" "ring_status" "" 3 "").samples
      = [⟨"riak_rpc", str "ring_status", 1⟩] ∧
    (riak_rpc [] ⟨true, some 3, some (.list [.atom "ok", .atom "ok"]), fun _ => .atom "ok"⟩
        "riak@127.0.0.1" "riak" "riak_core_status" "ring_status" "" 3 "").samples
      = [⟨"riak_rpc", str "ring_status", 1⟩] := by
  decide

/-- Past a tuple the decode reads what follows the reply in the buffer: for `{ok, ok}`
followed by bytes that decode to the atom `ok`, the third decode of window 3 succeeds, so
`match_string = "ok"` gives 1 and the empty `match_string` gives -1. -/
theorem riak_rpc_reads_behind_tuple :
    (riak_rpc [] ⟨true, some 3, some (.tuple [.atom "ok", .atom "ok"]),
          fun i => if i = 0 then .atom "ok" else .other⟩
        "riak@127.0.0.1" "riak" "riak_core_status" "ring_status" "" 3 "ok").samples
      = [⟨"riak_rpc", str "ring_status", 1⟩] ∧
    (riak_rpc [] ⟨true, some 3, some (.tuple [.atom "ok", .atom "ok"]),
          fun i => if i = 0 then .atom "ok" else .other⟩
        "riak@127.0.0.1" "riak" "riak_core_status" "ring_status" "" 3 "").samples
      = [⟨"riak_rpc", str "ring_status", -1⟩] := by
  decide

/-- C10 (as amended): when `ei_connect_init`, `ei_connect` or `ei_rpc` fails, `riak_rpc`
submits no sample at all and returns `-1`; the `-1` is a return value, not a sample. -/
theorem riak_rpc_failure_silent (fds : List Nat) (env : EiEnv)
    (node cookie mod func arg : String) (index : Int) (match_string : String)
    (hfail : env.connect_init_ok = false ∨ env.connect_fd = none ∨ env.rpc_reply = none) :
    (riak_rpc fds env node cookie mod func arg index match_string).samples = [] ∧
    (riak_rpc fds env node cookie mod func arg index match_string).ret = -1 := by
  unfold riak_rpc
  rcases hfail with h | h | h
  · simp [h]
  · split
    · simp
    · simp [h]
  · split
    · simp
    · split
      · simp
      · simp [h]

/-- C10, witness: a failing `ei_rpc` after a successful connect. -/
theorem riak_rpc_failure_silent_witness :
    (riak_rpc [] ⟨true, some 3, none, fun _ => .other⟩ "riak@127.0.0.1" "riak" "net_adm"
        "ping" "riak@127.0.0.1" 1 "pong").samples = [] ∧
    (riak_rpc [] ⟨true, some 3, none, fun _ => .other⟩ "riak@127.0.0.1" "riak" "net_adm"
        "ping" "riak@127.0.0.1" 1 "pong").ret = -1 :=
  riak_rpc_failure_silent [] ⟨true, some 3, none, fun _ => .other⟩ _ _ _ _ _ 1 "pong"
    (Or.inr (Or.inr rfl))

/-- C10, counterexample: when `ei_connect_init` fails, the samples submitted are not the
single sample `(riak_rpc, ping, -1)`: there is none. -/
theorem riak_rpc_failure_no_sentinel :
    (riak_rpc [] ⟨false, none, none, fun _ => .other⟩ "riak@127.0.0.1" "riak" "net_adm"
        "ping" "riak@127.0.0.1" 1 "pong").samples ≠ [⟨"riak_rpc", str "ping", -1⟩] := by
  decide

/-! ## Tokens in the buffer -/

theorem scan_token (stop : Nat → Bool) (tok : List Nat) (c : Nat) (R : List Nat)
    (htok : ∀ x ∈ tok, stop x = false) (hc : stop c = true) :
    scan stop (tok ++ c :: R) = some tok.length := by
  induction tok with
  | nil => simp [scan, hc]
  | cons t ts ih =>
    have ht : stop t = false := htok t (List.mem_cons_self _ _)
    have := ih (fun x hx => htok x (List.mem_cons_of_mem _ hx))
    simp [scan, ht, this]

theorem drop_after (A B : List Nat) (n : Nat) (h : n = A.length) : (A ++ B).drop n = B := by
  subst h; simp

theorem get_after (A : List Nat) (c : Nat) (R : List Nat) (n : Nat) (h : n = A.length) :
    (A ++ c :: R).get? n = some c := by
  subst h
  rw [List.get?_eq_getElem?, List.getElem?_append_right (Nat.le_refl _)]
  simp

theorem set_after (A : List Nat) (c v : Nat) (R : List Nat) (n : Nat) (h : n = A.length) :
    (A ++ c :: R).set n v = A ++ v :: R := by
  subst h; simp

theorem load_after (A : List Nat) (c : Nat) (R : List Nat) (n : Nat) (h : n = A.length) :
    load (A ++ c :: R) n = .ok c := by
  unfold load
  rw [get_after A c R n h]

theorem store_after (A : List Nat) (c v : Nat) (R : List Nat) (i : Int)
    (h : i = (A.length : Int)) :
    store (A ++ c :: R) i v = .ok (A ++ v :: R) := by
  subst h
  rw [store_ok _ _ _ (by simp)]
  rw [set_after A c v R _ rfl]

theorem strlen_after (A s : List Nat) (R : List Nat) (n : Nat) (h : n = A.length)
    (hs : ∀ x ∈ s, x ≠ 0) :
    strlen (A ++ s ++ 0 :: R) n = .ok s.length := by
  have : scan (fun c => c == 0) (s ++ 0 :: R) = some s.length :=
    scan_token _ s 0 R (fun x hx => by simpa using hs x hx) (by simp)
  simp [strlen, List.append_assoc, drop_after A _ n h, this]

theorem cstr_after (s : List Nat) (R : List Nat) (hs : ∀ x ∈ s, x ≠ 0) :
    cstr (s ++ 0 :: R) = some s := by
  induction s with
  | nil => simp [cstr]
  | cons t ts ih =>
    have ht : t ≠ 0 := hs t (List.mem_cons_self _ _)
    have := ih (fun x hx => hs x (List.mem_cons_of_mem _ hx))
    simp [cstr, ht, this]

theorem cstring_after (A s : List Nat) (R : List Nat) (n : Nat) (h : n = A.length)
    (hs : ∀ x ∈ s, x ≠ 0) :
    cstring (A ++ s ++ 0 :: R) n = .ok s := by
  simp [cstring, List.append_assoc, drop_after A _ n h, cstr_after s R hs]

theorem strtok_r_at (mem : List Nat) (s save : Option Nat) (delim : List Nat) (p : Nat)
    (h : (s <|> save) = some p) :
    strtok_r mem s delim save = strtok_r mem none delim (some p) := by
  unfold strtok_r
  rw [h]
  rfl

theorem strtok_r_token (A tok : List Nat) (c : Nat) (R : List Nat) (delim : List Nat)
    (p : Nat) (hp : p = A.length) (htok : is_token delim tok)
    (hc : c = 0 ∨ c ∈ delim) :
    strtok_r (A ++ tok ++ c :: R) none delim (some p)
      = .ok (A ++ tok ++ 0 :: R, some p, some (p + tok.length + (if c = 0 then 0 else 1))) := by
  obtain ⟨hne, hall⟩ := htok
  obtain ⟨t, ts, rfl⟩ := List.exists_cons_of_ne_nil hne
  have ht := hall t (List.mem_cons_self _ _)
  have hspn : strspn (A ++ (t :: ts) ++ c :: R) p delim = .ok 0 := by
    simp [strspn, List.append_assoc, drop_after A _ p hp, scan, ht.2]
  have hload : load (A ++ (t :: ts) ++ c :: R) p = .ok t := by
    rw [List.append_assoc, List.cons_append]
    exact load_after A t _ p hp
  have hcspn : strcspn (A ++ (t :: ts) ++ c :: R) p delim = .ok (t :: ts).length := by
    have : scan (fun c => c == 0 || delim.contains c) ((t :: ts) ++ c :: R)
        = some (t :: ts).length :=
      scan_token _ (t :: ts) c R (fun x hx => by simpa using hall x hx)
        (by rcases hc with h | h <;> simp [h])
    simp only [strcspn, List.append_assoc, drop_after A _ p hp]
    rw [← List.append_assoc] at *
    simp only [List.append_assoc] at this ⊢
    rw [this]
  have hload2 : load (A ++ (t :: ts) ++ c :: R) (p + (t :: ts).length) = .ok c :=
    load_after (A ++ (t :: ts)) c R _ (by simp [hp])
  unfold strtok_r
  simp only [Option.none_orElse, HOrElse.hOrElse, OrElse.orElse, Option.orElse, hspn,
    Nat.add_zero, hload, ht.1, if_false, hcspn, hload2]
  by_cases h0 : c = 0
  · subst h0; simp
  · have hst : store (A ++ (t :: ts) ++ c :: R) ((p + (t :: ts).length : Nat) : Int) 0
        = .ok (A ++ (t :: ts) ++ 0 :: R) :=
      store_after (A ++ (t :: ts)) c 0 R _ (by simp [hp])
    simp only [h0, if_false, hst]

theorem strtok_r_end (A : List Nat) (R : List Nat) (delim : List Nat) (p : Nat)
    (hp : p = A.length) (hd : 0 ∉ delim) :
    strtok_r (A ++ 0 :: R) none delim (some p) = .ok (A ++ 0 :: R, none, some p) := by
  have hspn : strspn (A ++ 0 :: R) p delim = .ok 0 := by
    simp [strspn, drop_after A _ p hp, scan, hd]
  unfold strtok_r
  simp only [HOrElse.hOrElse, OrElse.orElse, Option.orElse, hspn, Nat.add_zero,
    load_after A 0 R p hp, if_true]

/-! ## Well-formed bodies -/

theorem strcmp_key (X : List Nat) :
    ∀ (key m : List Nat), 0 ∉ m → (∀ x ∈ key, x ≠ 0) →
      ∃ r, strcmp (key ++ 0 :: X) m = some r ∧ (r = 0 ↔ key = m)
  | [], [], _, _ => ⟨0, by simp [strcmp], by simp⟩
  | [], d :: ds, hm, _ => by
      have hd : (0 : Nat) ≠ d := fun e => hm (e ▸ List.mem_cons_self _ _)
      refine ⟨(0 : Int) - (d : Int), by simp [strcmp, hd], ?_⟩
      constructor
      · intro h; exact absurd (by omega : d = 0) (fun e => hd e.symm)
      · intro h; simp at h
  | c :: cs, [], _, hk => by
      have hc : c ≠ 0 := hk c (List.mem_cons_self _ _)
      refine ⟨(c : Int), by simp [strcmp], ?_⟩
      constructor
      · intro h; exact absurd (by exact_mod_cast h) hc
      · intro h; simp at h
  | c :: cs, d :: ds, hm, hk => by
      by_cases hcd : c = d
      · subst hcd
        obtain ⟨r, hr, hiff⟩ := strcmp_key X cs ds
          (fun h => hm (List.mem_cons_of_mem _ h)) (fun x hx => hk x (List.mem_cons_of_mem _ hx))
        exact ⟨r, by simp [strcmp, hr], by simp [hiff]⟩
      · refine ⟨(c : Int) - (d : Int), by simp [strcmp, hcd], ?_⟩
        constructor
        · intro h; exact absurd (by omega : c = d) hcd
        · intro h; simp only [List.cons.injEq] at h; exact absurd h.1 hcd

theorem find_metric_key (A key X : List Nat) (p : Nat) (hp : p = A.length)
    (hk : ∀ x ∈ key, x ≠ 0) :
    ∀ ms : List (List Nat), (∀ m ∈ ms, 0 ∉ m) →
      find_metric (A ++ key ++ 0 :: X) p ms = .ok (decide (key ∈ ms))
  | [], _ => by simp [find_metric]
  | m :: ms, hms => by
      obtain ⟨r, hr, hiff⟩ := strcmp_key X key m (hms m (List.mem_cons_self _ _)) hk
      have ih := find_metric_key A key X p hp hk ms
        (fun m' h => hms m' (List.mem_cons_of_mem _ h))
      unfold find_metric
      rw [List.append_assoc, drop_after A _ p hp, hr]
      by_cases h0 : r = 0
      · have : key = m := hiff.1 h0
        simp [h0, this]
      · have hne : key ≠ m := fun e => h0 (hiff.2 e)
        simp only [h0, if_false]
        rw [← List.append_assoc, ih]
        simp [hne]

theorem digits_value_digits :
    ∀ (ds : List Nat) (acc : Nat), (∀ d ∈ ds, d < 10) →
      digits_value acc (ds.map (· + 48)) = acc * 10 ^ ds.length + Nat.ofDigits 10 ds.reverse
  | [], acc, _ => by simp [digits_value]
  | d :: ds, acc, h => by
      have hd : d < 10 := h d (List.mem_cons_self _ _)
      have hdig : isdigit (d + 48) = true := by
        simp [isdigit]; omega
      have ih := digits_value_digits ds (acc * 10 + d)
        (fun x hx => h x (List.mem_cons_of_mem _ hx))
      simp only [List.map_cons, digits_value, hdig, if_true, Nat.add_sub_cancel, ih,
        List.reverse_cons, Nat.ofDigits_append, List.length_reverse, Nat.ofDigits_singleton,
        List.length_cons]
      ring

theorem atoll_exact_numeral (l : StatLine) (hne : l.digits ≠ [])
    (hdig : ∀ d ∈ l.digits, d < 10) : atoll_exact l.numeral = l.value := by
  obtain ⟨d, ds, hds⟩ := List.exists_cons_of_ne_nil hne
  have hval := digits_value_digits l.digits 0 hdig
  simp only [Nat.zero_mul, Nat.zero_add] at hval
  unfold StatLine.value atoll_exact StatLine.numeral
  cases hneg : l.neg with
  | true =>
    have : List.dropWhile isspace ([45] ++ l.digits.map (· + 48))
        = 45 :: l.digits.map (· + 48) := by
      simp [List.dropWhile, isspace]
    simp only [if_true, this, hval]
  | false =>
    have hd : d < 10 := hdig d (by rw [hds]; exact List.mem_cons_self _ _)
    have hsp : isspace (d + 48) = false := by simp [isspace]
    have : List.dropWhile isspace ([] ++ l.digits.map (· + 48))
        = (d + 48) :: ds.map (· + 48) := by
      simp [hds, List.dropWhile, hsp]
    have hv2 : digits_value 0 ((d + 48) :: ds.map (· + 48))
        = Nat.ofDigits 10 l.digits.reverse := by
      rw [← hval, hds]; rfl
    simp only [if_false, Bool.false_eq_true, this]
    rw [hv2]

theorem atoll_numeral (l : StatLine) (hwf : l.wf) : atoll l.numeral = l.value := by
  obtain ⟨_, hne, hdig, hlo, hhi⟩ := hwf
  unfold atoll
  rw [atoll_exact_numeral l hne hdig, if_neg (by omega), if_neg (by omega)]

theorem numeral_no_nul (l : StatLine) (hdig : ∀ d ∈ l.digits, d < 10) :
    ∀ x ∈ l.numeral, x ≠ 0 ∧ x ∉ field_delim := by
  intro x hx
  unfold StatLine.numeral at hx
  rcases List.mem_append.1 hx with h | h
  · cases hneg : l.neg <;> simp [hneg] at h
    subst h
    simp [field_delim]
  · obtain ⟨d, hd, rfl⟩ := List.mem_map.1 h
    have := hdig d hd
    simp only [field_delim, List.mem_cons, List.mem_singleton, List.not_mem_nil, or_false]
    omega

theorem processed_length (l : StatLine) : l.processed.length = l.bytes.length := by
  simp [StatLine.processed, StatLine.bytes]

theorem strsplit_two (A t1 t2 B : List Nat) (c : Nat) (p : Nat) (hp : p = A.length)
    (h1 : is_token field_delim t1) (h2 : is_token field_delim t2)
    (hc : c ≠ 0) (hcd : c ∈ field_delim) :
    strsplit (A ++ t1 ++ c :: t2 ++ 0 :: B) p 2
      = .ok (A ++ t1 ++ 0 :: t2 ++ 0 :: B, [p, p + t1.length + 1]) := by
  have e1 : A ++ t1 ++ c :: t2 ++ 0 :: B = A ++ t1 ++ c :: (t2 ++ 0 :: B) := by simp
  have e2 : A ++ t1 ++ 0 :: (t2 ++ 0 :: B) = (A ++ t1 ++ [0]) ++ t2 ++ 0 :: B := by simp
  have s1 := strtok_r_token A t1 c (t2 ++ 0 :: B) field_delim p hp h1 (Or.inr hcd)
  have s2 := strtok_r_token (A ++ t1 ++ [0]) t2 0 B field_delim (p + t1.length + 1)
    (by simp [hp]; omega) h2 (Or.inl rfl)
  simp only [hc, if_false, if_true, Nat.add_zero] at s1 s2
  unfold strsplit
  rw [e1]
  unfold strsplit_loop
  rw [strtok_r_at _ (some p) none field_delim p rfl, s1]
  simp only
  unfold strsplit_loop
  rw [e2, s2]
  simp [strsplit_loop]

theorem process_line_wf (metrics : List String) (type : String) (A B : List Nat)
    (l : StatLine) (p : Nat) (hp : p = A.length) (hwf : l.wf)
    (hz : ∀ m ∈ metrics.map str, 0 ∉ m) :
    process_line metrics type (A ++ l.bytes ++ 0 :: B) p
      = .ok (A ++ l.processed ++ 0 :: B,
          if l.key ∈ metrics.map str then some ⟨type, l.key, l.value⟩ else none) := by
  have hkey := hwf.1
  have hnum := numeral_no_nul l hwf.2.2.1
  have hnum_ne : l.numeral ≠ [] := by
    obtain ⟨d, ds, hds⟩ := List.exists_cons_of_ne_nil hwf.2.1
    unfold StatLine.numeral
    simp [hds]
  have ht1 : is_token field_delim (34 :: l.key ++ [34, 58]) := by
    refine ⟨by simp, fun x hx => ?_⟩
    simp only [List.cons_append, List.mem_cons, List.mem_append, List.mem_singleton,
      List.not_mem_nil, or_false] at hx
    rcases hx with h | h | h | h
    · subst h; simp [field_delim]
    · exact hkey x h
    · subst h; simp [field_delim]
    · subst h; simp [field_delim]
  have ht2 : is_token field_delim (l.numeral ++ [44]) := by
    refine ⟨by simp, fun x hx => ?_⟩
    rcases List.mem_append.1 hx with h | h
    · exact hnum x h
    · simp only [List.mem_singleton] at h
      subst h; simp [field_delim]
  have e0 : A ++ l.bytes ++ 0 :: B
      = A ++ (34 :: l.key ++ [34, 58]) ++ 32 :: (l.numeral ++ [44]) ++ 0 :: B := by
    simp [StatLine.bytes]
  have hsplit := strsplit_two A (34 :: l.key ++ [34, 58]) (l.numeral ++ [44]) B 32 p hp ht1 ht2
    (by decide) (by simp [field_delim])
  -- the buffer after `strsplit`, seen from the key
  have m1 : A ++ (34 :: l.key ++ [34, 58]) ++ 0 :: (l.numeral ++ [44]) ++ 0 :: B
      = (A ++ [34]) ++ (l.key ++ [34, 58]) ++ 0 :: (l.numeral ++ 44 :: 0 :: B) := by simp
  have hlen0 : strlen ((A ++ [34]) ++ (l.key ++ [34, 58]) ++ 0 :: (l.numeral ++ 44 :: 0 :: B))
      (p + 1) = .ok (l.key.length + 2) := by
    rw [strlen_after (A ++ [34]) (l.key ++ [34, 58]) _ (p + 1) (by simp [hp])]
    · simp
    · intro x hx
      simp only [List.mem_append, List.mem_cons, List.mem_singleton, List.not_mem_nil,
        or_false] at hx
      rcases hx with h | h | h
      · exact (hkey x h).1
      · omega
      · omega
  have m2 : (A ++ [34]) ++ (l.key ++ [34, 58]) ++ 0 :: (l.numeral ++ 44 :: 0 :: B)
      = (A ++ 34 :: l.key) ++ 34 :: (58 :: 0 :: (l.numeral ++ 44 :: 0 :: B)) := by simp
  have hst0 : store ((A ++ 34 :: l.key) ++ 34 :: (58 :: 0 :: (l.numeral ++ 44 :: 0 :: B)))
      (((p + 1 : Nat) : Int) + ((l.key.length + 2 : Nat) : Int) - 2) 0
      = .ok ((A ++ 34 :: l.key) ++ 0 :: (58 :: 0 :: (l.numeral ++ 44 :: 0 :: B))) :=
    store_after _ _ _ _ _ (by simp [hp]; omega)
  have m3 : (A ++ 34 :: l.key) ++ 0 :: (58 :: 0 :: (l.numeral ++ 44 :: 0 :: B))
      = (A ++ 34 :: l.key ++ [0, 58, 0]) ++ (l.numeral ++ [44]) ++ 0 :: B := by simp
  have hval : p + (34 :: l.key ++ [34, 58]).length + 1
      = (A ++ 34 :: l.key ++ [0, 58, 0]).length := by simp [hp]; omega
  have hlen1 : strlen ((A ++ 34 :: l.key ++ [0, 58, 0]) ++ (l.numeral ++ [44]) ++ 0 :: B)
      (p + (34 :: l.key ++ [34, 58]).length + 1) = .ok (l.numeral.length + 1) := by
    rw [strlen_after _ (l.numeral ++ [44]) _ _ hval]
    · simp
    · exact fun x hx => (ht2.2 x hx).1
  have m4 : (A ++ 34 :: l.key ++ [0, 58, 0]) ++ (l.numeral ++ [44]) ++ 0 :: B
      = (A ++ 34 :: l.key ++ [0, 58, 0] ++ l.numeral) ++ 44 :: (0 :: B) := by simp
  have hst1 : store ((A ++ 34 :: l.key ++ [0, 58, 0] ++ l.numeral) ++ 44 :: (0 :: B))
      (((p + (34 :: l.key ++ [34, 58]).length + 1 : Nat) : Int)
        + ((l.numeral.length + 1 : Nat) : Int) - 1) 0
      = .ok ((A ++ 34 :: l.key ++ [0, 58, 0] ++ l.numeral) ++ 0 :: (0 :: B)) :=
    store_after _ _ _ _ _ (by simp [hp]; omega)
  -- the final buffer, seen from the key and from the value
  have m5 : (A ++ 34 :: l.key ++ [0, 58, 0] ++ l.numeral) ++ 0 :: (0 :: B)
      = (A ++ [34]) ++ l.key ++ 0 :: (58 :: 0 :: (l.numeral ++ 0 :: 0 :: B)) := by simp
  have m6 : (A ++ 34 :: l.key ++ [0, 58, 0] ++ l.numeral) ++ 0 :: (0 :: B)
      = (A ++ 34 :: l.key ++ [0, 58, 0]) ++ l.numeral ++ 0 :: (0 :: B) := by simp
  have m7 : (A ++ 34 :: l.key ++ [0, 58, 0] ++ l.numeral) ++ 0 :: (0 :: B)
      = A ++ l.processed ++ 0 :: B := by simp [StatLine.processed]
  have hfind : find_metric ((A ++ 34 :: l.key ++ [0, 58, 0] ++ l.numeral) ++ 0 :: (0 :: B))
      (p + 1) (metrics.map str) = .ok (decide (l.key ∈ metrics.map str)) := by
    rw [m5]
    exact find_metric_key (A ++ [34]) l.key _ (p + 1) (by simp [hp])
      (fun x hx => (hkey x hx).1) _ hz
  have hname : cstring ((A ++ 34 :: l.key ++ [0, 58, 0] ++ l.numeral) ++ 0 :: (0 :: B))
      (p + 1) = .ok l.key := by
    rw [m5]
    exact cstring_after (A ++ [34]) l.key _ (p + 1) (by simp [hp]) (fun x hx => (hkey x hx).1)
  have hnumc : cstring ((A ++ 34 :: l.key ++ [0, 58, 0] ++ l.numeral) ++ 0 :: (0 :: B))
      (p + (34 :: l.key ++ [34, 58]).length + 1) = .ok l.numeral := by
    rw [m6]
    exact cstring_after _ l.numeral _ _ hval (fun x hx => (hnum x hx).1)
  unfold process_line
  rw [e0, hsplit]
  simp only
  rw [m1, hlen0]
  simp only
  rw [m2, hst0]
  simp only
  rw [m3, hlen1]
  simp only
  rw [m4, hst1]
  simp only
  rw [hfind]
  by_cases hmem : l.key ∈ metrics.map str
  · simp only [hmem, decide_True, if_true]
    rw [hname, hnumc]
    simp only [atoll_numeral l hwf, m7]
  · simp only [hmem, decide_False, if_false, m7]

theorem terminated_length (t u : Nat) :
    ∀ Ls : List (List Nat), (terminated t Ls).length = (terminated u Ls).length
  | [] => rfl
  | L :: Ls => by simp [terminated, terminated_length t u Ls]

theorem terminated_append (t : Nat) (Ls Ms : List (List Nat)) :
    terminated t (Ls ++ Ms) = terminated t Ls ++ terminated t Ms := by
  induction Ls with
  | nil => rfl
  | cons L Ls ih => simp [terminated, ih]

theorem offsets_append (Ls Ms : List (List Nat)) (t : Nat) :
    ∀ p, offsets p (Ls ++ Ms) = offsets p Ls ++ offsets (p + (terminated t Ls).length) Ms := by
  induction Ls with
  | nil => intro p; simp [offsets, terminated]
  | cons L Ls ih =>
    intro p
    have e : p + L.length + 1 + (terminated t Ls).length
        = p + (terminated t (L :: Ls)).length := by
      simp only [terminated, List.length_append, List.length_cons]; omega
    show p :: offsets (p + L.length + 1) (Ls ++ Ms)
      = p :: offsets (p + L.length + 1) Ls ++ offsets (p + (terminated t (L :: Ls)).length) Ms
    rw [ih, e]
    rfl

theorem expected_samples_cons (metrics : List String) (type : String) (l : StatLine)
    (ls : List StatLine) :
    expected_samples metrics type (l :: ls)
      = (if l.key ∈ metrics.map str then some (⟨type, l.key, l.value⟩ : Sample) else none).toList
        ++ expected_samples metrics type ls := by
  unfold expected_samples
  by_cases h : l.key ∈ metrics.map str
  · simp [List.filter, h]
  · simp [List.filter, h]

theorem process_lines_wf (metrics : List String) (type : String) (B : List Nat)
    (hz : ∀ m ∈ metrics.map str, 0 ∉ m) :
    ∀ (ls : List StatLine) (A : List Nat) (p : Nat) (acc : List Sample), p = A.length →
      (∀ l ∈ ls, l.wf) →
      process_lines metrics type (A ++ terminated 0 (ls.map StatLine.bytes) ++ B)
          (offsets p (ls.map StatLine.bytes)) acc
        = (acc ++ expected_samples metrics type ls,
           A ++ terminated 0 (ls.map StatLine.processed) ++ B, none)
  | [], A, p, acc, _, _ => by simp [process_lines, offsets, terminated, expected_samples]
  | l :: ls, A, p, acc, hp, hwf => by
      have hl : l.wf := hwf l (List.mem_cons_self _ _)
      have e1 : A ++ terminated 0 ((l :: ls).map StatLine.bytes) ++ B
          = A ++ l.bytes ++ 0 :: (terminated 0 (ls.map StatLine.bytes) ++ B) := by
        simp [terminated]
      have e2 : A ++ l.processed ++ 0 :: (terminated 0 (ls.map StatLine.bytes) ++ B)
          = (A ++ l.processed ++ [0]) ++ terminated 0 (ls.map StatLine.bytes) ++ B := by
        simp
      have ih := process_lines_wf metrics type B hz ls (A ++ l.processed ++ [0])
        (p + l.bytes.length + 1)
        (acc ++ (if l.key ∈ metrics.map str then
          some (⟨type, l.key, l.value⟩ : Sample) else none).toList)
        (by simp [hp, processed_length]; omega)
        (fun x hx => hwf x (List.mem_cons_of_mem _ hx))
      rw [e1]
      simp only [List.map_cons, offsets]
      unfold process_lines
      rw [process_line_wf metrics type A _ l p hp hl hz]
      simp only
      rw [e2, ih, expected_samples_cons]
      simp [terminated]

theorem read_lines_start (fuel : Nat) (mem : List Nat) (p : Nat) (acc : List Nat) :
    read_lines fuel mem (some p) none acc = read_lines fuel mem none (some p) acc := by
  cases fuel with
  | zero => rfl
  | succ n =>
    rw [read_lines, read_lines, strtok_r_at mem (some p) none line_delim p rfl]

theorem read_lines_many (R : List Nat) (fuel : Nat) :
    ∀ (Ls : List (List Nat)) (A : List Nat) (p : Nat) (acc : List Nat), p = A.length →
      (∀ L ∈ Ls, is_token line_delim L) → acc.length + Ls.length ≤ 160 →
      read_lines (fuel + Ls.length) (A ++ terminated 10 Ls ++ R) none (some p) acc
        = read_lines fuel (A ++ terminated 0 Ls ++ R) none
            (some (p + (terminated 10 Ls).length)) (acc ++ offsets p Ls)
  | [], A, p, acc, _, _, _ => by simp [terminated, offsets]
  | L :: Ls, A, p, acc, hp, htok, hlen => by
      have hL := htok L (List.mem_cons_self _ _)
      have e1 : A ++ terminated 10 (L :: Ls) ++ R = A ++ L ++ 10 :: (terminated 10 Ls ++ R) := by
        simp [terminated]
      have e2 : A ++ L ++ 0 :: (terminated 10 Ls ++ R)
          = (A ++ L ++ [0]) ++ terminated 10 Ls ++ R := by simp
      have hacc : ¬ 160 ≤ acc.length := by
        simp only [List.length_cons] at hlen; omega
      have ih := read_lines_many R fuel Ls (A ++ L ++ [0]) (p + L.length + 1) (acc ++ [p])
        (by simp [hp]; omega) (fun x hx => htok x (List.mem_cons_of_mem _ hx))
        (by simp only [List.length_cons, List.length_append, List.length_nil] at hlen ⊢; omega)
      have s1 := strtok_r_token A L 10 (terminated 10 Ls ++ R) line_delim p hp hL
        (Or.inr (by simp [line_delim]))
      simp only [(by decide : (10 : Nat) ≠ 0), if_false] at s1
      rw [e1, List.length_cons, ← Nat.add_assoc, read_lines, s1]
      simp only [hacc, if_false]
      rw [e2, ih]
      have e3 : p + L.length + 1 + (terminated 10 Ls).length
          = p + (terminated 10 (L :: Ls)).length := by
        simp only [terminated, List.length_append, List.length_cons]; omega
      rw [e3]
      simp [terminated, offsets]

theorem read_lines_end (fuel : Nat) (A R : List Nat) (p : Nat) (acc : List Nat)
    (hp : p = A.length) (hacc : acc.length < 160) :
    read_lines (fuel + 1) (A ++ 0 :: R) none (some p) acc = .ok (A ++ 0 :: R, acc) := by
  rw [read_lines, strtok_r_end A R line_delim p hp (by simp [line_delim])]
  simp [Nat.not_le.2 hacc]

theorem read_lines_last (fuel : Nat) (A L R : List Nat) (p : Nat) (acc : List Nat)
    (hp : p = A.length) (hL : is_token line_delim L) (hacc : acc.length + 1 < 160) :
    read_lines (fuel + 2) (A ++ L ++ 0 :: R) none (some p) acc
      = .ok (A ++ L ++ 0 :: R, acc ++ [p]) := by
  have s1 := strtok_r_token A L 0 R line_delim p hp hL (Or.inl rfl)
  simp only [if_true, Nat.add_zero] at s1
  rw [read_lines, s1]
  simp only [Nat.not_le.2 (by omega : acc.length < 160), if_false]
  exact read_lines_end fuel (A ++ L) R (p + L.length) (acc ++ [p]) (by simp [hp])
    (by simp; omega)

theorem offsets_length : ∀ (Ls : List (List Nat)) (p : Nat), (offsets p Ls).length = Ls.length
  | [], _ => rfl
  | L :: Ls, p => by simp [offsets, offsets_length Ls]

theorem body_of_newline : ∀ lines : List StatLine,
    body_of lines true = terminated 10 (lines.map StatLine.bytes)
  | [] => rfl
  | [l] => by simp [body_of, terminated]
  | l :: l1 :: ls => by
      have ih := body_of_newline (l1 :: ls)
      simp only [body_of, ih, List.map_cons, terminated]

theorem body_of_last : ∀ (init : List StatLine) (last : StatLine),
    body_of (init ++ [last]) false = terminated 10 (init.map StatLine.bytes) ++ last.bytes
  | [], last => by simp [body_of, terminated]
  | [l], last => by simp [body_of, terminated]
  | l :: l1 :: ls, last => by
      have ih := body_of_last (l1 :: ls) last
      show l.bytes ++ 10 :: body_of ((l1 :: ls) ++ [last]) false = _
      rw [ih]
      simp [terminated]

theorem not_line_delim (x : Nat) (h : x ∉ field_delim) : x ∉ line_delim := by
  simp only [line_delim, field_delim, List.mem_cons, List.mem_singleton, List.not_mem_nil,
    or_false] at h ⊢
  omega

theorem bytes_line_token (l : StatLine) (hwf : l.wf) : is_token line_delim l.bytes := by
  have hnum := numeral_no_nul l hwf.2.2.1
  refine ⟨by simp [StatLine.bytes], fun x hx => ?_⟩
  unfold StatLine.bytes at hx
  rcases List.mem_append.1 hx with h | h
  · rcases List.mem_append.1 h with h | h
    · rcases List.mem_append.1 h with h | h
      · rcases List.mem_cons.1 h with h | h
        · subst h; simp [line_delim]
        · exact ⟨(hwf.1 x h).1, not_line_delim x (hwf.1 x h).2⟩
      · simp only [List.mem_cons, List.mem_singleton, List.not_mem_nil, or_false] at h
        rcases h with h | h | h <;> subst h <;> simp [line_delim]
    · exact ⟨(hnum x h).1, not_line_delim x (hnum x h).2⟩
  · simp only [List.mem_singleton] at h
    subst h; simp [line_delim]

theorem read_lines_body (lines : List StatLine) (nl : Bool) (T : List Nat)
    (hwf : ∀ l ∈ lines, l.wf) (hne : lines ≠ []) (hcount : lines.length < 160) :
    read_lines 161 (body_of lines nl ++ 0 :: T) (some 0) none []
      = .ok (terminated 0 (lines.map StatLine.bytes) ++ (if nl then 0 :: T else T),
          offsets 0 (lines.map StatLine.bytes)) := by
  rw [read_lines_start]
  cases nl with
  | true =>
    obtain ⟨fuel, hfuel⟩ : ∃ fuel, 161 = (fuel + 1) + (lines.map StatLine.bytes).length :=
      ⟨160 - lines.length - 1 + 1, by simp only [List.length_map]; omega⟩
    have hmany := read_lines_many (0 :: T) (fuel + 1) (lines.map StatLine.bytes) [] 0 [] rfl
      (fun L hL => by
        obtain ⟨l, hl, rfl⟩ := List.mem_map.1 hL
        exact bytes_line_token l (hwf l hl))
      (by simp only [List.length_map, List.length_nil]; omega)
    simp only [List.nil_append, Nat.zero_add] at hmany
    rw [body_of_newline, hfuel, hmany]
    rw [read_lines_end fuel _ T _ _ (terminated_length 10 0 _)
      (by rw [offsets_length, List.length_map]; exact hcount)]
    simp
  | false =>
    rcases List.eq_nil_or_concat' lines with h | ⟨init, last, rfl⟩
    · exact absurd h hne
    · have hlen : init.length + 1 < 160 := by simpa using hcount
      obtain ⟨fuel, hfuel⟩ : ∃ fuel, 161 = (fuel + 2) + (init.map StatLine.bytes).length :=
        ⟨160 - init.length - 1, by simp only [List.length_map]; omega⟩
      have hmany := read_lines_many (last.bytes ++ 0 :: T) (fuel + 2)
        (init.map StatLine.bytes) [] 0 [] rfl
        (fun L hL => by
          obtain ⟨l, hl, rfl⟩ := List.mem_map.1 hL
          exact bytes_line_token l (hwf l (List.mem_append_left _ hl)))
        (by simp only [List.length_map, List.length_nil]; omega)
      simp only [List.nil_append, Nat.zero_add] at hmany
      have hlast := bytes_line_token last (hwf last (by simp))
      rw [body_of_last, hfuel, List.append_assoc, hmany, ← List.append_assoc]
      rw [read_lines_last fuel _ last.bytes T _ _ (terminated_length 10 0 _) hlast
        (by rw [offsets_length, List.length_map]; exact hlen)]
      simp only [List.map_append, List.map_cons, List.map_nil, terminated_append,
        offsets_append _ _ 10, terminated, offsets, Nat.zero_add, Bool.false_eq_true,
        if_false, List.append_assoc, List.cons_append, List.nil_append]

theorem parse_pass_body (metrics : List String) (type : String) (lines : List StatLine)
    (nl : Bool) (T : List Nat) (n : Nat) (hz : ∀ m ∈ metrics.map str, 0 ∉ m)
    (hwf : ∀ l ∈ lines, l.wf) (hne : lines ≠ []) (hcount : lines.length < 160) :
    parse_pass metrics type ⟨body_of lines nl ++ 0 :: T, n⟩
      = ⟨expected_samples metrics type lines, some 0, none,
          ⟨terminated 0 (lines.map StatLine.processed) ++ (if nl then 0 :: T else T), 0⟩⟩ := by
  have h2 := process_lines_wf metrics type (if nl then 0 :: T else T) hz lines [] 0 [] rfl hwf
  simp only [List.nil_append] at h2
  unfold parse_pass
  simp only [read_lines_body lines nl T hwf hne hcount, h2]

theorem split_at_nul (l b : List Nat) (n : Nat) (htake : l.take n = b)
    (hget : l.get? n = some 0) : l = b ++ 0 :: l.drop (n + 1) := by
  have hlt : n < l.length := by
    rw [List.get?_eq_getElem?] at hget
    exact (List.getElem?_eq_some_iff.1 hget).1
  have h0 : l[n] = 0 := by
    rw [List.get?_eq_getElem?] at hget
    exact (List.getElem?_eq_some_iff.1 hget).2
  conv_lhs => rw [← List.take_append_drop n l]
  rw [htake, List.drop_eq_getElem_cons hlt, h0]

theorem range_map_getD (c : List Nat) : (List.range c.length).map (fun i => c.getD i 0) = c := by
  apply List.ext_getElem
  · simp
  · intro i h1 h2
    simp [List.getD_eq_getElem?_getD, List.getElem?_eq_getElem h2]

theorem curl_easy_perform_chunks :
    ∀ (chunks : List (List Nat)) (st : State),
      st.riak_buffer.length = sizeof_riak_buffer →
      st.riak_buffer_len + chunks.flatten.length < sizeof_riak_buffer →
      ∃ st1, curl_easy_perform st (deliver_chunks chunks).chunks = .ok st1 ∧
        st1.riak_buffer.length = sizeof_riak_buffer ∧
        st1.riak_buffer_len = st.riak_buffer_len + chunks.flatten.length ∧
        st1.riak_buffer.take st1.riak_buffer_len
          = st.riak_buffer.take st.riak_buffer_len ++ chunks.flatten ∧
        ((chunks.flatten ≠ [] ∨ st.riak_buffer.get? st.riak_buffer_len = some 0) →
          st1.riak_buffer.get? st1.riak_buffer_len = some 0)
  | [], st, hsize, _ => ⟨st, by simp [deliver_chunks, curl_easy_perform], hsize, by simp,
      by simp, by simp⟩
  | c :: cs, st, hsize, hfit => by
      have hs : sizeof_riak_buffer = 16384 := rfl
      simp only [List.flatten_cons, List.length_append] at hfit
      have hmod : (1 * c.length) % SIZE_MOD = c.length := by
        rw [SIZE_MOD_eq]; omega
      have hmod2 : (st.riak_buffer_len + c.length) % SIZE_MOD = st.riak_buffer_len + c.length := by
        rw [SIZE_MOD_eq]; omega
      obtain ⟨st1, h1, h2, h3, h4, h5, h6⟩ := append_chunk_ok st (fun i => c.getD i 0) c.length
        hsize (by omega)
      have hcb : riak_curl_callback st (fun i => c.getD i 0) 1 c.length = .ok (st1, c.length) := by
        unfold riak_curl_callback
        simp only [hmod, hmod2]
        rw [if_neg (by omega)]
        exact h1
      obtain ⟨st2, k1, k2, k3, k4, k5⟩ := curl_easy_perform_chunks cs st1 h2 (by omega)
      refine ⟨st2, ?_, k2, ?_, ?_, ?_⟩
      · simp only [deliver_chunks, List.map_cons, curl_easy_perform, hcb]
        exact k1
      · simp only [List.flatten_cons, List.length_append]; omega
      · rw [k4, h6, range_map_getD]; simp
      · intro hor
        apply k5
        by_cases hcs : cs.flatten = []
        · right
          by_cases hc : c = []
          · have : st1 = st := h5 (by simp [hc])
            rcases hor with h | h
            · simp [hc, hcs] at h
            · rw [this]; exact h
          · exact h4 (List.length_pos.2 hc)
        · exact Or.inl hcs

/-- C2: for a body of at least one and fewer than 160 lines of the shape
`"key": <decimal integer>,` (key without white space and NUL, integer within `long long`),
separated by newlines, with or without a final newline, which fits the buffer and is
delivered by libcurl in any number of pieces, `read_stats` ends with return value 0 and
without fault, and submits exactly one sample per line whose key is on the whitelist of the
endpoint type, in line order, with that type, the key and the integer of the line. -/
theorem read_stats_well_formed (st : State) (url type : String) (metrics : List String)
    (lines : List StatLine) (nl : Bool) (chunks : List (List Nat))
    (hsize : st.riak_buffer.length = sizeof_riak_buffer)
    (hsel : select_metrics type = some metrics)
    (hwf : ∀ l ∈ lines, l.wf) (hne : lines ≠ []) (hcount : lines.length < 160)
    (hbody : chunks.flatten = body_of lines nl)
    (hfit : (body_of lines nl).length ≤ sizeof_riak_buffer - 1) :
    (read_stats st (deliver_chunks chunks) (some url) type).samples
        = expected_samples metrics type lines ∧
      (read_stats st (deliver_chunks chunks) (some url) type).ret = some 0 ∧
      (read_stats st (deliver_chunks chunks) (some url) type).fault = none := by
  have hs : sizeof_riak_buffer = 16384 := rfl
  have hz : ∀ m ∈ metrics.map str, 0 ∉ m := by
    unfold select_metrics at hsel
    split at hsel
    · simp only [Option.some.injEq] at hsel
      subst hsel; exact stats_metrics_nul_free
    · split at hsel
      · simp only [Option.some.injEq] at hsel
        subst hsel; exact repl_metrics_nul_free
      · simp at hsel
  have hbne : body_of lines nl ≠ [] := by
    obtain ⟨l, ls, rfl⟩ := List.exists_cons_of_ne_nil hne
    cases ls <;> simp [body_of, StatLine.bytes]
  obtain ⟨st1, p1, p2, p3, p4, p5⟩ := curl_easy_perform_chunks chunks ⟨st.riak_buffer, 0⟩ hsize
    (by rw [hbody]; simp only []; omega)
  simp only [hbody, Nat.zero_add, List.take_zero, List.nil_append] at p3 p4 p5
  have hmem := split_at_nul st1.riak_buffer (body_of lines nl) st1.riak_buffer_len p4
    (p5 (Or.inl hbne))
  have hst1 : st1 = ⟨body_of lines nl ++ 0 :: st1.riak_buffer.drop (st1.riak_buffer_len + 1),
      st1.riak_buffer_len⟩ := by
    cases st1
    simp only [State.mk.injEq, and_true] at hmem ⊢
    exact hmem
  have hrun : read_stats st (deliver_chunks chunks) (some url) type
      = parse_pass metrics type st1 := by
    unfold read_stats
    simp only [hsel, p1]
    simp [deliver_chunks]
  rw [hrun, hst1, parse_pass_body metrics type lines nl _ _ hz hwf hne hcount]
  exact ⟨rfl, rfl, rfl⟩

/-- C2, witness: the body `"node_gets": 42,` with type "riak_stats" gives exactly the
sample `(riak_stats, node_gets, 42)`. -/
theorem read_stats_well_formed_witness :
    (read_stats State.init (deliver_chunks [str "\"node_gets\": 42,"])
        (some "http://127.0.0.1:8098/stats") "riak_stats").samples
      = [⟨"riak_stats", str "node_gets", 42⟩] ∧
    (read_stats State.init (deliver_chunks [str "\"node_gets\": 42,"])
        (some "http://127.0.0.1:8098/stats") "riak_stats").ret = some 0 ∧
    (read_stats State.init (deliver_chunks [str "\"node_gets\": 42,"])
        (some "http://127.0.0.1:8098/stats") "riak_stats").fault = none :=
  read_stats_well_formed State.init "http://127.0.0.1:8098/stats" "riak_stats" stats_metrics
    [⟨str "node_gets", false, [4, 2]⟩] false [str "\"node_gets\": 42,"]
    (List.length_replicate _ _) (by decide) (by decide) (by decide) (by decide) (by decide)
    (by decide)

/-! ## Runs of `read_stats` on concrete bodies -/

/-- C1, witness: of the two lines `"node_gets": 42,` and `"bogus": 7,` only the first one
is submitted, and its name is on the whitelist. -/
theorem read_stats_whitelist_witness :
    (⟨"riak_stats", str "node_gets", 42⟩ : Sample).type = "riak_stats" ∧
      (("riak_stats" = "riak_stats" ∧
          (⟨"riak_stats", str "node_gets", 42⟩ : Sample).type_instance
            ∈ stats_metrics.map str) ∨
       ("riak_stats" = "riak_repl" ∧
          (⟨"riak_stats", str "node_gets", 42⟩ : Sample).type_instance
            ∈ repl_metrics.map str)) :=
  read_stats_whitelist State.init (deliver_chunks [str "\"node_gets\": 42,\n\"bogus\": 7,\n"])
    (some "http://127.0.0.1:8098/stats") "riak_stats" ⟨"riak_stats", str "node_gets", 42⟩
    (by decide!)

/-- C3, the code at a body of 161 lines `a`: the line loop stores the pointer to the
161st line in `lines[160]`, outside `char *lines[160]`, before any line is processed. -/
theorem read_stats_lines_overflow :
    (read_stats State.init (deliver_chunks [(List.replicate 161 [97, 10]).flatten])
      (some "http://127.0.0.1:8098/stats") "riak_stats").fault = some (.lines_write 160) := by
  decide!

/-- C4, the code at the body `a 5`: the key token has length 1, `fields[0]` is moved onto
its terminating NUL, `strlen (fields[0]) - 2` wraps, and the store goes to
`riak_buffer[-1]`. -/
theorem read_stats_key_underflow :
    (read_stats State.init (deliver_chunks [str "a 5"])
      (some "http://127.0.0.1:8098/stats") "riak_stats").fault = some (.buffer_write (-1)) := by
  decide!

/-- C5, the code after a failed tick: a first fetch delivers `"node_gets": 42,` and then
fails, so nothing is parsed and the bytes stay in `riak_buffer`; the next fetch succeeds
with a zero-length body (no callback invocation, or one of length 0), and `read_stats`
submits the sample of the earlier body. -/
theorem read_stats_stale_body :
    (read_stats
        (read_stats State.init ⟨true, [⟨fun i => (str "\"node_gets\": 42,\n").getD i 0, 1, 17⟩],
          false⟩ (some "http://127.0.0.1:8098/stats") "riak_stats").state
        ⟨true, [], true⟩ (some "http://127.0.0.1:8098/stats") "riak_stats").samples
      = [⟨"riak_stats", str "node_gets", 42⟩] ∧
    (read_stats
        (read_stats State.init ⟨true, [⟨fun i => (str "\"node_gets\": 42,\n").getD i 0, 1, 17⟩],
          false⟩ (some "http://127.0.0.1:8098/stats") "riak_stats").state
        ⟨true, [⟨fun _ => 0, 1, 0⟩], true⟩ (some "http://127.0.0.1:8098/stats")
        "riak_stats").samples
      = [⟨"riak_stats", str "node_gets", 42⟩] := by
  decide!

/-! ## Connections, samples and the tick -/

/-- C11, the code when `ei_rpc` fails after a successful connect: with no descriptor open
before the call and `ei_connect` returning descriptor 3, `riak_rpc` returns `-1` and
descriptor 3 is still open; when `ei_rpc` succeeds the same call leaves none open. -/
theorem riak_rpc_leaks_descriptor :
    (riak_rpc [] ⟨true, some 3, none, fun _ => .other⟩ "riak@127.0.0.1" "riak" "net_adm"
        "ping" "riak@127.0.0.1" 1 "pong").open_fds = [3] ∧
    (riak_rpc [] ⟨true, some 3, none, fun _ => .other⟩ "riak@127.0.0.1" "riak" "net_adm"
        "ping" "riak@127.0.0.1" 1 "pong").ret = -1 ∧
    (riak_rpc [] ⟨true, some 3, some (.scalar (.atom "pong") 0), fun _ => .other⟩
        "riak@127.0.0.1" "riak" "net_adm" "ping" "riak@127.0.0.1" 1 "pong").open_fds = [] := by
  decide

theorem scan_loop_values (view : Nat → Elem) (match_string : String) (index : Int) :
    ∀ (n c : Nat) (m : Int), (m = 1 ∨ m = -1) →
      (scan_loop view match_string index n c m = 1 ∨
        scan_loop view match_string index n c m = -1)
  | 0, _, m, h => by simpa [scan_loop] using h
  | n + 1, c, m, _ => by
      rw [scan_loop]
      split
      · split
        · exact Or.inl rfl
        · exact scan_loop_values view match_string index n _ 1 (Or.inl rfl)
      · exact scan_loop_values view match_string index n _ (-1) (Or.inr rfl)

/-- C12: when `ei_connect_init`, `ei_connect` and `ei_rpc` succeed, `riak_rpc` submits
exactly one sample; its type is "riak_rpc", its `type_instance` is the function name passed
in and its value is `1` or `-1`, for every reply, whatever follows it in the buffer, and
every `index`. -/
theorem riak_rpc_one_sample (fds : List Nat) (fd : Nat) (reply : Reply) (behind : Nat → Elem)
    (node cookie mod func arg : String) (index : Int) (match_string : String) :
    ∃ v : Int, (v = 1 ∨ v = -1) ∧
      (riak_rpc fds ⟨true, some fd, some reply, behind⟩ node cookie mod func arg index
          match_string).samples = [⟨"riak_rpc", str func, v⟩] := by
  rw [riak_rpc_replied]
  exact ⟨_, scan_loop_values _ _ _ _ _ _ (Or.inr rfl), rfl⟩

theorem riak_read_defined (st : State) (fds : List Nat) (stats_url repl_url : Option String)
    (tick : Tick) (hdef : (riak_read st fds stats_url repl_url tick).fault = none) :
    (read_stats st tick.stats stats_url "riak_stats").fault = none ∧
      (read_stats (read_stats st tick.stats stats_url "riak_stats").state tick.repl repl_url
        "riak_repl").fault = none := by
  cases h1 : (read_stats st tick.stats stats_url "riak_stats").fault with
  | some f =>
    simp [riak_read, ReadRun.start, ReadRun.call_read_stats, ReadRun.call_riak_rpc,
      ReadRun.return_zero, h1] at hdef
  | none =>
    cases h2 : (read_stats (read_stats st tick.stats stats_url "riak_stats").state tick.repl
        repl_url "riak_repl").fault with
    | some f =>
      simp [riak_read, ReadRun.start, ReadRun.call_read_stats, ReadRun.call_riak_rpc,
        ReadRun.return_zero, h1, h2] at hdef
    | none => exact ⟨rfl, rfl⟩

/-- C13: a run of `riak_read` that does not leave defined behaviour makes its six calls in
the fixed order (the fetch of `stats_url`, the fetch of `repl_url`, then the probes
ring_status, ringready, services and ping) and returns 0, whatever each fetch and each
probe meets.  Every call is executed: the samples of the run are those of the six calls in
order, each fetch working on the globals left by the call before it and each probe on the
descriptors left by the probe before it, and the run ends with the globals of the second
fetch and the descriptors of the last probe. -/
theorem riak_read_all_calls (st : State) (fds : List Nat) (stats_url repl_url : Option String)
    (tick : Tick) (hdef : (riak_read st fds stats_url repl_url tick).fault = none) :
    let r1 := read_stats st tick.stats stats_url "riak_stats"
    let r2 := read_stats r1.state tick.repl repl_url "riak_repl"
    let p1 := riak_rpc fds tick.ring_status "riak@127.0.0.1" "riak" "riak_core_status"
      "ring_status" "" 3 ""
    let p2 := riak_rpc p1.open_fds tick.ringready "riak@127.0.0.1" "riak" "riak_core_status"
      "ringready" "" 1 "ok"
    let p3 := riak_rpc p2.open_fds tick.services "riak@127.0.0.1" "riak"
      "riak_core_node_watcher" "services" "" 1 "riak_kv"
    let p4 := riak_rpc p3.open_fds tick.ping "riak@127.0.0.1" "riak" "net_adm" "ping"
      "riak@127.0.0.1" 1 "pong"
    (riak_read st fds stats_url repl_url tick).calls
      = [.read_stats stats_url "riak_stats", .read_stats repl_url "riak_repl",
         .riak_rpc "riak@127.0.0.1" "riak" "riak_core_status" "ring_status" "" 3 "",
         .riak_rpc "riak@127.0.0.1" "riak" "riak_core_status" "ringready" "" 1 "ok",
         .riak_rpc "riak@127.0.0.1" "riak" "riak_core_node_watcher" "services" "" 1 "riak_kv",
         .riak_rpc "riak@127.0.0.1" "riak" "net_adm" "ping" "riak@127.0.0.1" 1 "pong"] ∧
    (riak_read st fds stats_url repl_url tick).ret = some 0 ∧
    (riak_read st fds stats_url repl_url tick).samples
      = r1.samples ++ r2.samples ++ p1.samples ++ p2.samples ++ p3.samples ++ p4.samples ∧
    (riak_read st fds stats_url repl_url tick).state = r2.state ∧
    (riak_read st fds stats_url repl_url tick).open_fds = p4.open_fds := by
  obtain ⟨h1, h2⟩ := riak_read_defined st fds stats_url repl_url tick hdef
  simp [riak_read, ReadRun.start, ReadRun.call_read_stats, ReadRun.call_riak_rpc,
    ReadRun.return_zero, h1, h2]

/-- C13, witness: a tick in which the first fetch fails, the second fetch delivers
`"queue_length": 5,`, the ring_status probe cannot connect, ringready answers `{ok, ...}`,
the call of services fails after its connect and ping answers `pong`: the calls after each
failure are made, and their samples are there. -/
theorem riak_read_all_calls_witness :
    (riak_read State.init [] (some "http://127.0.0.1:8098/stats")
        (some "http://127.0.0.1:8098/riak-repl/stats")
        ⟨⟨true, [], false⟩, deliver_chunks [str "\"queue_length\": 5,"],
          ⟨false, none, none, fun _ => .other⟩,
          ⟨true, some 3, some (.tuple [.atom "ok", .other]), fun _ => .other⟩,
          ⟨true, some 3, none, fun _ => .other⟩,
          ⟨true, some 4, some (.scalar (.atom "pong") 0), fun _ => .other⟩⟩).calls
      = [.read_stats (some "http://127.0.0.1:8098/stats") "riak_stats",
         .read_stats (some "http://127.0.0.1:8098/riak-repl/stats") "riak_repl",
         .riak_rpc "riak@127.0.0.1" "riak" "riak_core_status" "ring_status" "" 3 "",
         .riak_rpc "riak@127.0.0.1" "riak" "riak_core_status" "ringready" "" 1 "ok",
         .riak_rpc "riak@127.0.0.1" "riak" "riak_core_node_watcher" "services" "" 1 "riak_kv",
         .riak_rpc "riak@127.0.0.1" "riak" "net_adm" "ping" "riak@127.0.0.1" 1 "pong"] ∧
    (riak_read State.init [] (some "http://127.0.0.1:8098/stats")
        (some "http://127.0.0.1:8098/riak-repl/stats")
        ⟨⟨true, [], false⟩, deliver_chunks [str "\"queue_length\": 5,"],
          ⟨false, none, none, fun _ => .other⟩,
          ⟨true, some 3, some (.tuple [.atom "ok", .other]), fun _ => .other⟩,
          ⟨true, some 3, none, fun _ => .other⟩,
          ⟨true, some 4, some (.scalar (.atom "pong") 0), fun _ => .other⟩⟩).ret = some 0 ∧
    (riak_read State.init [] (some "http://127.0.0.1:8098/stats")
        (some "http://127.0.0.1:8098/riak-repl/stats")
        ⟨⟨true, [], false⟩, deliver_chunks [str "\"queue_length\": 5,"],
          ⟨false, none, none, fun _ => .other⟩,
          ⟨true, some 3, some (.tuple [.atom "ok", .other]), fun _ => .other⟩,
          ⟨true, some 3, none, fun _ => .other⟩,
          ⟨true, some 4, some (.scalar (.atom "pong") 0), fun _ => .other⟩⟩).samples
      = [⟨"riak_repl", str "queue_length", 5⟩, ⟨"riak_rpc", str "ringready", 1⟩,
         ⟨"riak_rpc", str "ping", 1⟩] ∧
    (riak_read State.init [] (some "http://127.0.0.1:8098/stats")
        (some "http://127.0.0.1:8098/riak-repl/stats")
        ⟨⟨true, [], false⟩, deliver_chunks [str "\"queue_length\": 5,"],
          ⟨false, none, none, fun _ => .other⟩,
          ⟨true, some 3, some (.tuple [.atom "ok", .other]), fun _ => .other⟩,
          ⟨true, some 3, none, fun _ => .other⟩,
          ⟨true, some 4, some (.scalar (.atom "pong") 0), fun _ => .other⟩⟩).open_fds = [3] :=
  ⟨(riak_read_all_calls State.init [] (some "http://127.0.0.1:8098/stats")
      (some "http://127.0.0.1:8098/riak-repl/stats")
      ⟨⟨true, [], false⟩, deliver_chunks [str "\"queue_length\": 5,"],
        ⟨false, none, none, fun _ => .other⟩,
        ⟨true, some 3, some (.tuple [.atom "ok", .other]), fun _ => .other⟩,
        ⟨true, some 3, none, fun _ => .other⟩,
        ⟨true, some 4, some (.scalar (.atom "pong") 0), fun _ => .other⟩⟩ (by decide!)).1,
    by decide!, by decide!, by decide!⟩

/-- C14: for a buffer that holds `n <= 16383` bytes and a chunk of `size * nmemb` bytes,
with no wrap-around in `size_t`, `riak_curl_callback` returns `m = min (size * nmemb)
(16383 - n)`, sets `riak_buffer_len = n + m`, keeps the bytes `0..n-1` and puts the first
`m` bytes of the chunk behind them; when `m = 0` the globals are unchanged. -/
theorem riak_curl_callback_truncates (st : State) (buf : Nat → Nat) (size nmemb : Nat)
    (hsize : st.riak_buffer.length = sizeof_riak_buffer)
    (hlen : st.riak_buffer_len ≤ sizeof_riak_buffer - 1)
    (hwrap : st.riak_buffer_len + size * nmemb < SIZE_MOD) :
    ∃ st1, riak_curl_callback st buf size nmemb
        = .ok (st1, min (size * nmemb) (sizeof_riak_buffer - 1 - st.riak_buffer_len)) ∧
      st1.riak_buffer_len
        = st.riak_buffer_len + min (size * nmemb) (sizeof_riak_buffer - 1 - st.riak_buffer_len) ∧
      st1.riak_buffer.length = sizeof_riak_buffer ∧
      st1.riak_buffer.take st1.riak_buffer_len
        = st.riak_buffer.take st.riak_buffer_len
          ++ (List.range (min (size * nmemb)
                (sizeof_riak_buffer - 1 - st.riak_buffer_len))).map buf ∧
      (min (size * nmemb) (sizeof_riak_buffer - 1 - st.riak_buffer_len) = 0 → st1 = st) := by
  have hs : sizeof_riak_buffer = 16384 := rfl
  have hmod : (size * nmemb) % SIZE_MOD = size * nmemb := Nat.mod_eq_of_lt (by omega)
  unfold riak_curl_callback
  simp only [hmod, Nat.mod_eq_of_lt hwrap]
  by_cases hbig : sizeof_riak_buffer ≤ st.riak_buffer_len + size * nmemb
  · have hgt : sizeof_riak_buffer > st.riak_buffer_len := by omega
    have hmin : min (size * nmemb) (sizeof_riak_buffer - 1 - st.riak_buffer_len)
        = sizeof_riak_buffer - 1 - st.riak_buffer_len := by omega
    simp only [hbig, hgt, if_true, hmin]
    obtain ⟨st1, h1, h2, h3, _, h5, h6⟩ := append_chunk_ok st buf
      (sizeof_riak_buffer - 1 - st.riak_buffer_len) hsize (by omega)
    exact ⟨st1, h1, h3, h2, h6, h5⟩
  · have hmin : min (size * nmemb) (sizeof_riak_buffer - 1 - st.riak_buffer_len)
        = size * nmemb := by omega
    simp only [hbig, if_false, hmin]
    obtain ⟨st1, h1, h2, h3, _, h5, h6⟩ := append_chunk_ok st buf (size * nmemb) hsize
      (by omega)
    exact ⟨st1, h1, h3, h2, h6, h5⟩

/-- C14, witness: a chunk of 10 bytes offered to a buffer that holds 16380 bytes. -/
theorem riak_curl_callback_truncates_witness :
    ∃ st1, riak_curl_callback ⟨List.replicate sizeof_riak_buffer 7, 16380⟩ (fun i => 65 + i)
          1 10
        = .ok (st1, min (1 * 10) (sizeof_riak_buffer - 1 - 16380)) ∧
      st1.riak_buffer_len = 16380 + min (1 * 10) (sizeof_riak_buffer - 1 - 16380) ∧
      st1.riak_buffer.length = sizeof_riak_buffer ∧
      st1.riak_buffer.take st1.riak_buffer_len
        = (List.replicate sizeof_riak_buffer 7).take 16380
          ++ (List.range (min (1 * 10) (sizeof_riak_buffer - 1 - 16380))).map
              (fun i => 65 + i) ∧
      (min (1 * 10) (sizeof_riak_buffer - 1 - 16380) = 0 →
        st1 = ⟨List.replicate sizeof_riak_buffer 7, 16380⟩) :=
  riak_curl_callback_truncates ⟨List.replicate sizeof_riak_buffer 7, 16380⟩
    (fun i => 65 + i) 1 10 (List.length_replicate _ _) (by decide) (by decide)

/-! ## The last iteration decides -/

/-- C19: with `n = index` when `index != 0` and `n = arity` otherwise, the value submitted
by `riak_rpc` is `1` when `n >= 1` and the decode of the last iteration, `n - 1`, leaves a
string equal to `match_string` in `atom` (the empty string when that decode fails), and `-1`
otherwise; the decode reads the buffer wherever the cursor stands, so past a tuple it reads
what follows the reply.  All `n` iterations are executed, each one setting `match` from its
own decode alone, so an earlier match is overwritten and the `break` under `index == 0` is
never reached. -/
theorem riak_rpc_last_decode (fds : List Nat) (fd : Nat) (reply : Reply)
    (behind : Nat → Elem) (node cookie mod func arg : String) (index : Int)
    (match_string : String) :
    (riak_rpc fds ⟨true, some fd, some reply, behind⟩ node cookie mod func arg index
        match_string).samples
      = [⟨"riak_rpc", str func,
          if 1 ≤ (if index = 0 then reply.arity else index) ∧
              decoded_at (reply.term_at behind)
                  ((if index = 0 then reply.arity else index).toNat - 1)
                = match_string
          then 1 else -1⟩] ∧
    scan_trace (reply.term_at behind) match_string
        (if index = 0 then reply.arity else index)
        (if index = 0 then reply.arity else index).toNat 0
      = (List.range (if index = 0 then reply.arity else index).toNat).map
          (fun j => (decoded_at (reply.term_at behind) j,
            if decoded_at (reply.term_at behind) j = match_string then (1 : Int) else -1)) := by
  rw [riak_rpc_replied]
  generalize (if index = 0 then reply.arity else index) = n
  by_cases hn : 1 ≤ n
  · have hidx : n ≠ 0 := by omega
    obtain ⟨k, hk⟩ : ∃ k : Nat, n.toNat = k + 1 := ⟨n.toNat - 1, by omega⟩
    constructor
    · rw [hk, scan_loop_last _ match_string n hidx k 0 0 (-1) (cursor_inv_start _)]
      simp [hn]
    · rw [scan_trace_all _ match_string n hidx n.toNat 0 0 (cursor_inv_start _),
        List.range_eq_range']
  · have hz : n.toNat = 0 := by omega
    simp [hz, hn, scan_loop, scan_trace]

/-! ## Lines of any shape -/

theorem scan_skip (stop : Nat → Bool) (ws R : List Nat) (hws : ∀ x ∈ ws, stop x = false) :
    scan stop (ws ++ R) = (scan stop R).map (· + ws.length) := by
  induction ws with
  | nil => simp
  | cons w ws ih =>
    have hw : stop w = false := hws w (List.mem_cons_self _ _)
    have := ih (fun x hx => hws x (List.mem_cons_of_mem _ hx))
    simp only [List.cons_append, scan, hw, Bool.false_eq_true, if_false, List.length_cons]
    show Option.map (fun x => x + 1) (scan stop (ws ++ R)) = _
    rw [this]
    cases scan stop R <;> simp [Nat.add_assoc]

theorem strtok_r_skip (A ws R : List Nat) (delim : List Nat) (p : Nat) (hp : p = A.length)
    (hws : ∀ x ∈ ws, x ∈ delim) :
    strtok_r (A ++ ws ++ R) none delim (some p)
      = strtok_r (A ++ ws ++ R) none delim (some (p + ws.length)) := by
  have h1 : strspn (A ++ ws ++ R) p delim
      = match scan (fun c => !delim.contains c) R with
        | some n => .ok (n + ws.length)
        | none => .error (.buffer_read (A ++ ws ++ R).length) := by
    unfold strspn
    rw [List.append_assoc, drop_after A _ p hp,
      scan_skip _ ws R (fun x hx => by simpa using hws x hx)]
    cases scan (fun c => !delim.contains c) R <;> rfl
  have h2 : strspn (A ++ ws ++ R) (p + ws.length) delim
      = match scan (fun c => !delim.contains c) R with
        | some n => .ok n
        | none => .error (.buffer_read (A ++ ws ++ R).length) := by
    unfold strspn
    rw [drop_after (A ++ ws) R _ (by simp [hp])]
  unfold strtok_r
  simp only [HOrElse.hOrElse, OrElse.orElse, Option.orElse, h1, h2]
  cases scan (fun c => !delim.contains c) R with
  | none => rfl
  | some n =>
    have e : p + (n + ws.length) = p + ws.length + n := by omega
    simp only [e]

theorem strtok_r_skip_token (A ws tok : List Nat) (c : Nat) (R : List Nat)
    (delim : List Nat) (p : Nat) (hp : p = A.length) (hws : ∀ x ∈ ws, x ∈ delim)
    (htok : is_token delim tok) (hc : c = 0 ∨ c ∈ delim) :
    strtok_r (A ++ ws ++ tok ++ c :: R) none delim (some p)
      = .ok (A ++ ws ++ tok ++ 0 :: R, some (p + ws.length),
          some (p + ws.length + tok.length + (if c = 0 then 0 else 1))) := by
  have e : A ++ ws ++ tok ++ c :: R = A ++ ws ++ (tok ++ c :: R) := by simp
  rw [e, strtok_r_skip A ws _ delim p hp hws, ← e]
  exact strtok_r_token (A ++ ws) tok c R delim _ (by simp [hp]) htok hc

theorem strtok_r_skip_end (A ws R : List Nat) (delim : List Nat) (p : Nat)
    (hp : p = A.length) (hws : ∀ x ∈ ws, x ∈ delim) (hd : 0 ∉ delim) :
    strtok_r (A ++ ws ++ 0 :: R) none delim (some p)
      = .ok (A ++ ws ++ 0 :: R, none, some (p + ws.length)) := by
  rw [strtok_r_skip A ws _ delim p hp hws]
  exact strtok_r_end (A ++ ws) R delim _ (by simp [hp]) hd

theorem field_delim_no_nul : (0 : Nat) ∉ field_delim := by decide

theorem strsplit_first_two (A ws0 t1 ws1 t2 R : List Nat) (d c p : Nat) (hp : p = A.length)
    (hws0 : ∀ w ∈ ws0, w ∈ field_delim) (hd : d ∈ field_delim)
    (hws1 : ∀ w ∈ ws1, w ∈ field_delim)
    (h1 : is_token field_delim t1) (h2 : is_token field_delim t2)
    (hc : c = 0 ∨ c ∈ field_delim) :
    strsplit (A ++ ws0 ++ t1 ++ d :: ws1 ++ t2 ++ c :: R) p 2
      = .ok (A ++ ws0 ++ t1 ++ 0 :: ws1 ++ t2 ++ 0 :: R,
          [p + ws0.length, p + ws0.length + t1.length + 1 + ws1.length]) := by
  have hd0 : d ≠ 0 := fun e => field_delim_no_nul (e ▸ hd)
  have e1 : A ++ ws0 ++ t1 ++ d :: ws1 ++ t2 ++ c :: R
      = A ++ ws0 ++ t1 ++ d :: (ws1 ++ t2 ++ c :: R) := by simp
  have e2 : A ++ ws0 ++ t1 ++ 0 :: (ws1 ++ t2 ++ c :: R)
      = (A ++ ws0 ++ t1 ++ [0]) ++ ws1 ++ t2 ++ c :: R := by simp
  have e3 : (A ++ ws0 ++ t1 ++ [0]) ++ ws1 ++ t2 ++ 0 :: R
      = A ++ ws0 ++ t1 ++ 0 :: ws1 ++ t2 ++ 0 :: R := by simp
  have s1 := strtok_r_skip_token A ws0 t1 d (ws1 ++ t2 ++ c :: R) field_delim p hp hws0 h1
    (Or.inr hd)
  have s2 := strtok_r_skip_token (A ++ ws0 ++ t1 ++ [0]) ws1 t2 c R field_delim
    (p + ws0.length + t1.length + 1) (by simp [hp]; omega) hws1 h2 hc
  simp only [hd0, if_false] at s1
  unfold strsplit
  rw [e1]
  unfold strsplit_loop
  rw [strtok_r_at _ (some p) none field_delim p rfl, s1]
  simp only
  unfold strsplit_loop
  rw [e2, s2, e3]
  simp [strsplit_loop]

theorem strsplit_one (A ws0 tok ws1 B : List Nat) (p : Nat) (hp : p = A.length)
    (hws0 : ∀ w ∈ ws0, w ∈ field_delim) (hws1 : ∀ w ∈ ws1, w ∈ field_delim)
    (htok : is_token field_delim tok) :
    ∃ mem1, strsplit (A ++ ws0 ++ tok ++ ws1 ++ 0 :: B) p 2 = .ok (mem1, [p + ws0.length]) := by
  unfold strsplit
  unfold strsplit_loop
  rw [strtok_r_at _ (some p) none field_delim p rfl]
  cases ws1 with
  | nil =>
    have s1 := strtok_r_skip_token A ws0 tok 0 B field_delim p hp hws0 htok (Or.inl rfl)
    have s2 := strtok_r_end (A ++ ws0 ++ tok) B field_delim (p + ws0.length + tok.length)
      (by simp [hp]; omega) field_delim_no_nul
    simp only [if_true, Nat.add_zero] at s1
    rw [List.append_nil, s1]
    simp only
    unfold strsplit_loop
    rw [s2]
    exact ⟨_, rfl⟩
  | cons d ws =>
    have hd : d ∈ field_delim := hws1 d (List.mem_cons_self _ _)
    have hd0 : d ≠ 0 := fun e => field_delim_no_nul (e ▸ hd)
    have e1 : A ++ ws0 ++ tok ++ d :: ws ++ 0 :: B = A ++ ws0 ++ tok ++ d :: (ws ++ 0 :: B) := by
      simp
    have e2 : A ++ ws0 ++ tok ++ 0 :: (ws ++ 0 :: B) = (A ++ ws0 ++ tok ++ [0]) ++ ws ++ 0 :: B := by
      simp
    have s1 := strtok_r_skip_token A ws0 tok d (ws ++ 0 :: B) field_delim p hp hws0 htok
      (Or.inr hd)
    have s2 := strtok_r_skip_end (A ++ ws0 ++ tok ++ [0]) ws B field_delim
      (p + ws0.length + tok.length + 1) (by simp [hp]; omega)
      (fun x hx => hws1 x (List.mem_cons_of_mem _ hx)) field_delim_no_nul
    simp only [hd0, if_false] at s1
    rw [e1, s1]
    simp only
    unfold strsplit_loop
    rw [e2, s2]
    exact ⟨_, rfl⟩

theorem select_metrics_nul_free (type : String) (metrics : List String)
    (hsel : select_metrics type = some metrics) : ∀ m ∈ metrics.map str, 0 ∉ m := by
  unfold select_metrics at hsel
  split at hsel
  · simp only [Option.some.injEq] at hsel
    subst hsel; exact stats_metrics_nul_free
  · split at hsel
    · simp only [Option.some.injEq] at hsel
      subst hsel; exact repl_metrics_nul_free
    · simp at hsel

theorem process_line_two_fields (metrics : List String) (type : String)
    (A ws0 key ws1 num R : List Nat) (x y z d e c p : Nat) (hp : p = A.length)
    (hz : ∀ m ∈ metrics.map str, 0 ∉ m)
    (hws0 : ∀ w ∈ ws0, w ∈ field_delim) (hd : d ∈ field_delim)
    (hws1 : ∀ w ∈ ws1, w ∈ field_delim)
    (h1 : is_token field_delim (x :: key ++ [y, z]))
    (h2 : is_token field_delim (num ++ [e]))
    (hc : c = 0 ∨ c ∈ field_delim) :
    process_line metrics type
        (A ++ ws0 ++ (x :: key ++ [y, z]) ++ d :: ws1 ++ (num ++ [e]) ++ c :: R) p
      = .ok (A ++ ws0 ++ (x :: key ++ [0, z]) ++ 0 :: ws1 ++ (num ++ [0]) ++ 0 :: R,
          if key ∈ metrics.map str then some ⟨type, key, atoll num⟩ else none) := by
  have hkey : ∀ k ∈ key, k ≠ 0 := fun k hk =>
    (h1.2 k (by simp [hk])).1
  have hy : y ≠ 0 := (h1.2 y (by simp)).1
  have hz0 : z ≠ 0 := (h1.2 z (by simp)).1
  have hnum : ∀ k ∈ num, k ≠ 0 := fun k hk => (h2.2 k (by simp [hk])).1
  have he : e ≠ 0 := (h2.2 e (by simp)).1
  have hsplit := strsplit_first_two A ws0 (x :: key ++ [y, z]) ws1 (num ++ [e]) R d c p hp
    hws0 hd hws1 h1 h2 hc
  have m1 : A ++ ws0 ++ (x :: key ++ [y, z]) ++ 0 :: ws1 ++ (num ++ [e]) ++ 0 :: R
      = (A ++ ws0 ++ [x]) ++ (key ++ [y, z]) ++ 0 :: (ws1 ++ num ++ e :: 0 :: R) := by simp
  have hlen0 : strlen ((A ++ ws0 ++ [x]) ++ (key ++ [y, z]) ++ 0 :: (ws1 ++ num ++ e :: 0 :: R))
      (p + ws0.length + 1) = .ok (key.length + 2) := by
    rw [strlen_after (A ++ ws0 ++ [x]) (key ++ [y, z]) _ _ (by simp [hp]; try omega)]
    · simp
    · intro k hk
      simp only [List.mem_append, List.mem_cons, List.mem_singleton, List.not_mem_nil,
        or_false] at hk
      rcases hk with h | h | h
      · exact hkey k h
      · rw [h]; exact hy
      · rw [h]; exact hz0
  have m2 : (A ++ ws0 ++ [x]) ++ (key ++ [y, z]) ++ 0 :: (ws1 ++ num ++ e :: 0 :: R)
      = (A ++ ws0 ++ x :: key) ++ y :: (z :: 0 :: (ws1 ++ num ++ e :: 0 :: R)) := by simp
  have hst0 : store ((A ++ ws0 ++ x :: key) ++ y :: (z :: 0 :: (ws1 ++ num ++ e :: 0 :: R)))
      (((p + ws0.length + 1 : Nat) : Int) + ((key.length + 2 : Nat) : Int) - 2) 0
      = .ok ((A ++ ws0 ++ x :: key) ++ 0 :: (z :: 0 :: (ws1 ++ num ++ e :: 0 :: R))) :=
    store_after _ _ _ _ _ (by simp [hp]; omega)
  have m3 : (A ++ ws0 ++ x :: key) ++ 0 :: (z :: 0 :: (ws1 ++ num ++ e :: 0 :: R))
      = (A ++ ws0 ++ x :: key ++ [0, z, 0] ++ ws1) ++ (num ++ [e]) ++ 0 :: R := by simp
  have hval : p + ws0.length + (x :: key ++ [y, z]).length + 1 + ws1.length
      = (A ++ ws0 ++ x :: key ++ [0, z, 0] ++ ws1).length := by simp [hp]; omega
  have hlen1 : strlen ((A ++ ws0 ++ x :: key ++ [0, z, 0] ++ ws1) ++ (num ++ [e]) ++ 0 :: R)
      (p + ws0.length + (x :: key ++ [y, z]).length + 1 + ws1.length)
      = .ok (num.length + 1) := by
    rw [strlen_after _ (num ++ [e]) _ _ hval]
    · simp
    · exact fun k hk => (h2.2 k hk).1
  have m4 : (A ++ ws0 ++ x :: key ++ [0, z, 0] ++ ws1) ++ (num ++ [e]) ++ 0 :: R
      = (A ++ ws0 ++ x :: key ++ [0, z, 0] ++ ws1 ++ num) ++ e :: (0 :: R) := by simp
  have hst1 : store ((A ++ ws0 ++ x :: key ++ [0, z, 0] ++ ws1 ++ num) ++ e :: (0 :: R))
      (((p + ws0.length + (x :: key ++ [y, z]).length + 1 + ws1.length : Nat) : Int)
        + ((num.length + 1 : Nat) : Int) - 1) 0
      = .ok ((A ++ ws0 ++ x :: key ++ [0, z, 0] ++ ws1 ++ num) ++ 0 :: (0 :: R)) :=
    store_after _ _ _ _ _ (by simp [hp]; omega)
  have m5 : (A ++ ws0 ++ x :: key ++ [0, z, 0] ++ ws1 ++ num) ++ 0 :: (0 :: R)
      = (A ++ ws0 ++ [x]) ++ key ++ 0 :: (z :: 0 :: (ws1 ++ num ++ 0 :: 0 :: R)) := by simp
  have m6 : (A ++ ws0 ++ x :: key ++ [0, z, 0] ++ ws1 ++ num) ++ 0 :: (0 :: R)
      = (A ++ ws0 ++ x :: key ++ [0, z, 0] ++ ws1) ++ num ++ 0 :: (0 :: R) := by simp
  have m7 : (A ++ ws0 ++ x :: key ++ [0, z, 0] ++ ws1 ++ num) ++ 0 :: (0 :: R)
      = A ++ ws0 ++ (x :: key ++ [0, z]) ++ 0 :: ws1 ++ (num ++ [0]) ++ 0 :: R := by simp
  have hfind : find_metric
      ((A ++ ws0 ++ x :: key ++ [0, z, 0] ++ ws1 ++ num) ++ 0 :: (0 :: R))
      (p + ws0.length + 1) (metrics.map str) = .ok (decide (key ∈ metrics.map str)) := by
    rw [m5]
    exact find_metric_key (A ++ ws0 ++ [x]) key _ _ (by simp [hp]; try omega) hkey _ hz
  have hname : cstring ((A ++ ws0 ++ x :: key ++ [0, z, 0] ++ ws1 ++ num) ++ 0 :: (0 :: R))
      (p + ws0.length + 1) = .ok key := by
    rw [m5]
    exact cstring_after (A ++ ws0 ++ [x]) key _ _ (by simp [hp]; try omega) hkey
  have hnumc : cstring ((A ++ ws0 ++ x :: key ++ [0, z, 0] ++ ws1 ++ num) ++ 0 :: (0 :: R))
      (p + ws0.length + (x :: key ++ [y, z]).length + 1 + ws1.length) = .ok num := by
    rw [m6]
    exact cstring_after _ num _ _ hval hnum
  unfold process_line
  rw [hsplit]
  simp only
  rw [m1, hlen0]
  simp only
  rw [m2, hst0]
  simp only
  rw [m3, hlen1]
  simp only
  rw [m4, hst1]
  simp only
  rw [hfind]
  by_cases hmem : key ∈ metrics.map str
  · simp only [hmem, decide_True, if_true]
    rw [hname, hnumc]
    simp only [m7]
  · simp only [hmem, decide_False, if_false, m7]

theorem digits_value_no_digit (r : List Nat)
    (h : r.head?.all (fun c => !isdigit c) = true) : digits_value 0 r = 0 := by
  cases r with
  | nil => rfl
  | cons c cs =>
    simp only [List.head?_cons, Option.all_some, Bool.not_eq_true'] at h
    simp [digits_value, h]

theorem atoll_no_digit (s : List Nat) (h : no_leading_digit s = true) : atoll s = 0 := by
  have hex : atoll_exact s = 0 := by
    unfold no_leading_digit at h
    unfold atoll_exact
    split at h <;> simp [digits_value_no_digit _ h]
  unfold atoll
  rw [hex]
  decide

/-- C15 (as amended): a line that consists of one white-space delimited token, with any white
space before and after it, makes `strsplit` return 1 and no sample is submitted for it,
whatever the token is; a line whose second token is followed by more white space and any
further bytes is split into its first two tokens and handled as a line of those two. -/
theorem process_line_field_count (metrics : List String) (type : String)
    (A ws0 tok ws1 B key num R : List Nat) (x y z d e c p : Nat) (hp : p = A.length)
    (hsel : select_metrics type = some metrics)
    (hws0 : ∀ w ∈ ws0, w ∈ field_delim) (hws1 : ∀ w ∈ ws1, w ∈ field_delim)
    (htok : is_token field_delim tok) (hd : d ∈ field_delim)
    (h1 : is_token field_delim (x :: key ++ [y, z]))
    (h2 : is_token field_delim (num ++ [e])) (hc : c ∈ field_delim) :
    (∃ mem1, process_line metrics type (A ++ ws0 ++ tok ++ ws1 ++ 0 :: B) p
        = .ok (mem1, none)) ∧
    process_line metrics type
        (A ++ ws0 ++ (x :: key ++ [y, z]) ++ d :: ws1 ++ (num ++ [e]) ++ c :: R) p
      = .ok (A ++ ws0 ++ (x :: key ++ [0, z]) ++ 0 :: ws1 ++ (num ++ [0]) ++ 0 :: R,
          if key ∈ metrics.map str then some ⟨type, key, atoll num⟩ else none) := by
  constructor
  · obtain ⟨mem1, h⟩ := strsplit_one A ws0 tok ws1 B p hp hws0 hws1 htok
    refine ⟨mem1, ?_⟩
    unfold process_line
    rw [h]
  · exact process_line_two_fields metrics type A ws0 key ws1 num R x y z d e c p hp
      (select_metrics_nul_free type metrics hsel) hws0 hd hws1 h1 h2 (Or.inr hc)

/-- C15, witness: the one-token line `"node_gets":` gives no sample, and the three-token
line `"node_gets": 42, extra` is handled as `"node_gets": 42,`. -/
theorem process_line_field_count_witness :
    (∃ mem1, process_line stats_metrics "riak_stats"
        ([] ++ [] ++ str "\"node_gets\":" ++ [] ++ 0 :: []) 0 = .ok (mem1, none)) ∧
    process_line stats_metrics "riak_stats"
        ([] ++ [] ++ (34 :: str "node_gets" ++ [34, 58]) ++ 32 :: [] ++ (str "42" ++ [44])
          ++ 32 :: str "extra\x00") 0
      = .ok ([] ++ [] ++ (34 :: str "node_gets" ++ [0, 58]) ++ 0 :: [] ++ (str "42" ++ [0])
          ++ 0 :: str "extra\x00",
          if str "node_gets" ∈ stats_metrics.map str then
            some ⟨"riak_stats", str "node_gets", atoll (str "42")⟩
          else none) :=
  process_line_field_count stats_metrics "riak_stats" [] [] (str "\"node_gets\":") [] []
    (str "node_gets") (str "42") (str "extra\x00") 34 34 58 32 44 32 0 rfl (by decide)
    (by decide) (by decide) (by decide) (by decide) (by decide) (by decide) (by decide)

/-- C15, counterexample: the body `"node_gets": 42, extra` is one line of three tokens, and
`read_stats` submits the sample `(riak_stats, node_gets, 42)` for it. -/
theorem read_stats_three_tokens :
    (read_stats State.init (deliver_chunks [str "\"node_gets\": 42, extra"])
        (some "http://127.0.0.1:8098/stats") "riak_stats").samples
      = [⟨"riak_stats", str "node_gets", 42⟩] := by
  decide!

/-- C16: for a line whose first two tokens are a key token of at least three bytes
`x key y z` and a value token `num e`, with any white space around them and anything after,
the string compared with the whitelist is `key`, the key token without its first byte and
its last two bytes, and the value submitted is `atoll` of `num`, the value token without its
last byte, whatever the bytes `x`, `y`, `z` and `e` are. -/
theorem process_line_positional (metrics : List String) (type : String)
    (A ws0 key ws1 num R : List Nat) (x y z d e c p : Nat) (hp : p = A.length)
    (hsel : select_metrics type = some metrics)
    (hws0 : ∀ w ∈ ws0, w ∈ field_delim) (hd : d ∈ field_delim)
    (hws1 : ∀ w ∈ ws1, w ∈ field_delim)
    (h1 : is_token field_delim (x :: key ++ [y, z]))
    (h2 : is_token field_delim (num ++ [e]))
    (hc : c = 0 ∨ c ∈ field_delim) :
    process_line metrics type
        (A ++ ws0 ++ (x :: key ++ [y, z]) ++ d :: ws1 ++ (num ++ [e]) ++ c :: R) p
      = .ok (A ++ ws0 ++ (x :: key ++ [0, z]) ++ 0 :: ws1 ++ (num ++ [0]) ++ 0 :: R,
          if key ∈ metrics.map str then some ⟨type, key, atoll num⟩ else none) :=
  process_line_two_fields metrics type A ws0 key ws1 num R x y z d e c p hp
    (select_metrics_nul_free type metrics hsel) hws0 hd hws1 h1 h2 hc

/-- C16, witness: the line `Xnode_getsYZ 7,` gives the sample `(riak_stats, node_gets, 7)`,
and so does the body made of it; the body `"node_gets": 42` without a comma gives the
value 4. -/
theorem process_line_positional_witness :
    (process_line stats_metrics "riak_stats"
        ([] ++ [] ++ (88 :: str "node_gets" ++ [89, 90]) ++ 32 :: [] ++ (str "7" ++ [44])
          ++ 0 :: []) 0
      = .ok ([] ++ [] ++ (88 :: str "node_gets" ++ [0, 90]) ++ 0 :: [] ++ (str "7" ++ [0])
          ++ 0 :: [],
          if str "node_gets" ∈ stats_metrics.map str then
            some ⟨"riak_stats", str "node_gets", atoll (str "7")⟩
          else none)) ∧
    (read_stats State.init (deliver_chunks [str "Xnode_getsYZ 7,"])
        (some "http://127.0.0.1:8098/stats") "riak_stats").samples
      = [⟨"riak_stats", str "node_gets", 7⟩] ∧
    (read_stats State.init (deliver_chunks [str "\"node_gets\": 42"])
        (some "http://127.0.0.1:8098/stats") "riak_stats").samples
      = [⟨"riak_stats", str "node_gets", 4⟩] :=
  ⟨process_line_positional stats_metrics "riak_stats" [] [] (str "node_gets") [] (str "7") []
      88 89 90 32 44 0 0 rfl (by decide) (by decide) (by decide) (by decide) (by decide)
      (by decide) (by decide),
    by decide!, by decide!⟩

/-- C17: for a line whose first two tokens are a key token `x key y z` with `key` on the
whitelist and a value token `num e` where `num` does not start, after optional white space
and sign, with a decimal digit, a sample is submitted all the same and its value is 0. -/
theorem process_line_non_numeric (metrics : List String) (type : String)
    (A ws0 key ws1 num R : List Nat) (x y z d e c p : Nat) (hp : p = A.length)
    (hsel : select_metrics type = some metrics)
    (hws0 : ∀ w ∈ ws0, w ∈ field_delim) (hd : d ∈ field_delim)
    (hws1 : ∀ w ∈ ws1, w ∈ field_delim)
    (h1 : is_token field_delim (x :: key ++ [y, z]))
    (h2 : is_token field_delim (num ++ [e]))
    (hc : c = 0 ∨ c ∈ field_delim)
    (hmem : key ∈ metrics.map str) (hnum : no_leading_digit num = true) :
    process_line metrics type
        (A ++ ws0 ++ (x :: key ++ [y, z]) ++ d :: ws1 ++ (num ++ [e]) ++ c :: R) p
      = .ok (A ++ ws0 ++ (x :: key ++ [0, z]) ++ 0 :: ws1 ++ (num ++ [0]) ++ 0 :: R,
          some ⟨type, key, 0⟩) := by
  rw [process_line_two_fields metrics type A ws0 key ws1 num R x y z d e c p hp
    (select_metrics_nul_free type metrics hsel) hws0 hd hws1 h1 h2 hc]
  simp only [hmem, if_true, atoll_no_digit num hnum]

/-- C17, witness: the line `"node_gets": abc,` gives the sample `(riak_stats, node_gets, 0)`,
and so does the body made of it. -/
theorem process_line_non_numeric_witness :
    (process_line stats_metrics "riak_stats"
        ([] ++ [] ++ (34 :: str "node_gets" ++ [34, 58]) ++ 32 :: [] ++ (str "abc" ++ [44])
          ++ 0 :: []) 0
      = .ok ([] ++ [] ++ (34 :: str "node_gets" ++ [0, 58]) ++ 0 :: [] ++ (str "abc" ++ [0])
          ++ 0 :: [],
          some ⟨"riak_stats", str "node_gets", 0⟩)) ∧
    (read_stats State.init (deliver_chunks [str "\"node_gets\": abc,"])
        (some "http://127.0.0.1:8098/stats") "riak_stats").samples
      = [⟨"riak_stats", str "node_gets", 0⟩] :=
  ⟨process_line_non_numeric stats_metrics "riak_stats" [] [] (str "node_gets") [] (str "abc")
      [] 34 34 58 32 44 0 0 rfl (by decide) (by decide) (by decide) (by decide) (by decide)
      (by decide) (by decide) (by decide) (by decide),
    by decide!⟩

/-- C18, the code on an empty body after a failed tick: a fetch delivers `"node_gets": 42,`
and fails, so the bytes stay unparsed in `riak_buffer`; then the pass is run twice with the
same zero-length body.  The first run submits `(riak_stats, node_gets, 42)` and cuts the
buffer after `"node_gets`; the second run submits nothing. -/
theorem read_stats_twice_differs :
    (read_stats
        (read_stats State.init ⟨true, [⟨fun i => (str "\"node_gets\": 42,\n").getD i 0, 1, 17⟩],
          false⟩ (some "http://127.0.0.1:8098/stats") "riak_stats").state
        (deliver_chunks []) (some "http://127.0.0.1:8098/stats") "riak_stats").samples
      = [⟨"riak_stats", str "node_gets", 42⟩] ∧
    (read_stats
        (read_stats
          (read_stats State.init
            ⟨true, [⟨fun i => (str "\"node_gets\": 42,\n").getD i 0, 1, 17⟩], false⟩
            (some "http://127.0.0.1:8098/stats") "riak_stats").state
          (deliver_chunks []) (some "http://127.0.0.1:8098/stats") "riak_stats").state
        (deliver_chunks []) (some "http://127.0.0.1:8098/stats") "riak_stats").samples
      = [] := by
  decide!

end Riak
